import Mathlib

/-!
Verification development for the TypeScript structural extractor
(`typescript_extractor`: `extractor.py`, `node_handlers.py`, `models.py`).

The concrete-syntax-tree node of the parsing library is embedded as a rose
tree carrying the node kind, the raw text of the node, its (row, column)
start and end points, and an optional field tag (the grammar field under
which the node sits in its parent, so that `child_by_field_name` can be
expressed).  Each extraction function of `node_handlers.py` is translated
into a total Lean function; the per-child exception handling of the walker
in `extractor.py` is modelled by a walker parameterised over a child step
returning `Except`.
-/

set_option maxRecDepth 4000

namespace TsExtract

/-- A concrete syntax tree node: kind tag, field tag in the parent (if the
grammar assigns one), raw text, start and end (row, column) points, and
children in source order. -/
inductive Node where
  | mk (kind : String) (fieldTag : Option String) (text : String)
       (startPt : Nat × Nat) (endPt : Nat × Nat) (children : List Node)

def Node.kind : Node → String
  | .mk k _ _ _ _ _ => k

def Node.fieldTag : Node → Option String
  | .mk _ f _ _ _ _ => f

def Node.text : Node → String
  | .mk _ _ t _ _ _ => t

def Node.start_point : Node → Nat × Nat
  | .mk _ _ _ s _ _ => s

def Node.end_point : Node → Nat × Nat
  | .mk _ _ _ _ e _ => e

def Node.children : Node → List Node
  | .mk _ _ _ _ _ c => c

/-- `Node.child_by_field_name n f` returns the first child of `n` filed
under grammar field `f` (tree-sitter `child_by_field_name`). -/
def Node.child_by_field_name (n : Node) (f : String) : Option Node :=
  n.children.find? (fun c => c.fieldTag == some f)

/-- `find_node` from `node_handlers.py`: first node of the list satisfying
the condition, if any. -/
def find_node (nodes : List Node) (condition : Node → Bool) : Option Node :=
  nodes.find? condition

/-- A quotation-mark character: double quote or single quote
(the character of code point 39). -/
def isQuoteChar (c : Char) : Bool :=
  c = '"' || c.toNat = 39

/-- Python `s.strip(quotes)`: remove every leading and trailing quote
character. -/
def stripQuotes (s : String) : String :=
  (((s.toList.dropWhile isQuoteChar).reverse.dropWhile isQuoteChar).reverse).asString

/-! ## Record model (`models.py` and the shared code-graph entities) -/

/-- `ImportStatement`: one imported binding. -/
structure ImportStatement where
  name : String
  module : String
  start_point : Nat × Nat
  end_point : Nat × Nat
  source_code : String
  file_path : Option String := none
deriving Repr, DecidableEq

/-- `FunctionDefinition`: one top-level function binding. -/
structure FunctionDefinition where
  name : String
  start_point : Nat × Nat
  end_point : Nat × Nat
  source_code : String
  file_path : Option String := none
deriving Repr, DecidableEq

/-- `ClassDefinition`. -/
structure ClassDefinition where
  name : String
  start_point : Nat × Nat
  end_point : Nat × Nat
  source_code : String
  file_path : Option String := none
deriving Repr, DecidableEq

/-- `InterfaceDefinition` (`models.py`). -/
structure InterfaceDefinition where
  name : String
  start_point : Nat × Nat
  end_point : Nat × Nat
  source_code : String
  file_path : Option String := none
deriving Repr, DecidableEq

/-- `TypeAliasDefinition` (`models.py`). -/
structure TypeAliasDefinition where
  name : String
  start_point : Nat × Nat
  end_point : Nat × Nat
  source_code : String
  file_path : Option String := none
deriving Repr, DecidableEq

/-- `EnumDefinition` (`models.py`). -/
structure EnumDefinition where
  name : String
  start_point : Nat × Nat
  end_point : Nat × Nat
  source_code : String
  file_path : Option String := none
deriving Repr, DecidableEq

/-- `ExportStatement` (`models.py`). -/
structure ExportStatement where
  name : String
  local_name : Option String := none
  is_default : Bool := false
  is_type_only : Bool := false
  start_point : Nat × Nat
  end_point : Nat × Nat
  source_code : String
  file_path : Option String := none
deriving Repr, DecidableEq

/-- `MethodDefinition` (`models.py`). -/
structure MethodDefinition where
  name : String
  class_name : String
  is_static : Bool := false
  is_async : Bool := false
  is_private : Bool := false
  is_getter : Bool := false
  is_setter : Bool := false
  is_constructor : Bool := false
  start_point : Nat × Nat
  end_point : Nat × Nat
  source_code : String
  file_path : Option String := none
deriving Repr, DecidableEq

/-- `TypeScriptCodeFile` (`models.py`): the CodeUnit, owning the record
lists.  The uuid identity is derived deterministically from the path and is
not modelled. -/
structure TypeScriptCodeFile where
  name : String
  file_path : Option String := none
  language : String := "typescript"
  source_code : Option String := none
  depends_on : List ImportStatement := []
  provides_function_definition : List FunctionDefinition := []
  provides_class_definition : List ClassDefinition := []
  provides_interface_definition : List InterfaceDefinition := []
  provides_type_alias : List TypeAliasDefinition := []
  provides_enum_definition : List EnumDefinition := []
  exports : List ExportStatement := []
  provides_method_definition : List MethodDefinition := []
deriving Repr, DecidableEq

/-- Build an `ImportStatement` from a name, a module path and the node that
supplies span and raw text, as every import-family handler does. -/
def mkImport (name module : String) (node : Node) (script_path : String) : ImportStatement :=
  { name := name
    module := module
    start_point := node.start_point
    end_point := node.end_point
    source_code := node.text
    file_path := some script_path }

/-! ## Import / require / re-export handlers (`node_handlers.py`) -/

/-- `extract_import_from_node`: default, namespace and named imports from an
`import_statement` node. -/
def extract_import_from_node (node : Node) (script_path : String) : List ImportStatement :=
  match find_node node.children (fun n => n.kind == "string") with
  | none => []
  | some module_node =>
    let module_path := stripQuotes module_node.text
    match find_node node.children (fun n => n.kind == "import_clause") with
    | none => []
    | some import_clause =>
      let defaultPart : List ImportStatement :=
        match find_node import_clause.children (fun n => n.kind == "identifier") with
        | some identifier_node => [mkImport identifier_node.text module_path node script_path]
        | none => []
      let namespacePart : List ImportStatement :=
        match find_node import_clause.children (fun n => n.kind == "namespace_import") with
        | some namespace_import =>
          match find_node namespace_import.children (fun n => n.kind == "identifier") with
          | some namespace_identifier =>
            [mkImport namespace_identifier.text module_path node script_path]
          | none => []
        | none => []
      let namedPart : List ImportStatement :=
        match find_node import_clause.children (fun n => n.kind == "named_imports") with
        | some named_imports =>
          named_imports.children.flatMap (fun child =>
            if child.kind == "import_specifier" then
              match child.children.filter (fun c => c.kind == "identifier") with
              | [_, b] => [mkImport b.text module_path node script_path]
              | [a] => [mkImport a.text module_path node script_path]
              | _ => []
            else [])
        | none => []
      defaultPart ++ namespacePart ++ namedPart

/-- `extract_require_from_node`: CommonJS `require` bindings from a
`lexical_declaration` node. -/
def extract_require_from_node (node : Node) (script_path : String) : List ImportStatement :=
  match find_node node.children (fun n => n.kind == "variable_declarator") with
  | none => []
  | some declarator =>
    match find_node declarator.children (fun n => n.kind == "call_expression") with
    | none => []
    | some call_expr =>
      match find_node call_expr.children (fun n => n.kind == "identifier") with
      | none => []
      | some function_node =>
        if function_node.text ≠ "require" then []
        else
          match find_node call_expr.children (fun n => n.kind == "arguments") with
          | none => []
          | some arguments =>
            match find_node arguments.children (fun n => n.kind == "string") with
            | none => []
            | some module_node =>
              let module_path := stripQuotes module_node.text
              match declarator.child_by_field_name "name" with
              | none => []
              | some name_node =>
                if name_node.kind == "object_pattern" then
                  name_node.children.flatMap (fun child =>
                    if child.kind == "shorthand_property_identifier_pattern" then
                      [mkImport child.text module_path node script_path]
                    else if child.kind == "pair_pattern" then
                      match (child.children.filter (fun c =>
                          c.kind == "identifier" || c.kind == "shorthand_property_identifier")).getLast? with
                      | some last => [mkImport last.text module_path node script_path]
                      | none => []
                    else [])
                else if name_node.kind == "identifier" then
                  [mkImport name_node.text module_path node script_path]
                else []

/-- `extract_reexport_from_node`: wildcard and named re-exports from an
`export_statement` node that carries a module string. -/
def extract_reexport_from_node (node : Node) (script_path : String) : List ImportStatement :=
  match find_node node.children (fun n => n.kind == "string") with
  | none => []
  | some module_node =>
    let module_path := stripQuotes module_node.text
    let has_wildcard := node.children.any (fun c => c.kind == "*" || c.text == "*")
    if has_wildcard then
      [mkImport "*" module_path node script_path]
    else
      match find_node node.children (fun n => n.kind == "export_clause") with
      | none => []
      | some export_clause =>
        export_clause.children.flatMap (fun child =>
          if child.kind == "export_specifier" then
            match child.children.filter (fun c => c.kind == "identifier") with
            | [_, b] => [mkImport b.text module_path node script_path]
            | [a] => [mkImport a.text module_path node script_path]
            | _ => []
          else [])

/-! ## Declaration handlers (`node_handlers.py`) -/

/-- The name resolved by `extract_function_from_node` before the record is
built: function declarations take their `name` field; a lexical declaration
is inspected through its first `variable_declarator` only, which must carry
an `arrow_function` or `function_expression` child. -/
def resolvedFunctionName (node : Node) : Option String :=
  if node.kind == "function_declaration" then
    (node.child_by_field_name "name").map Node.text
  else if node.kind == "lexical_declaration" then
    match find_node node.children (fun n => n.kind == "variable_declarator") with
    | none => none
    | some declarator =>
      match find_node declarator.children (fun n => n.kind == "arrow_function") with
      | some _ => (declarator.child_by_field_name "name").map Node.text
      | none =>
        match find_node declarator.children (fun n => n.kind == "function_expression") with
        | some _ => (declarator.child_by_field_name "name").map Node.text
        | none => none
  else none

/-- `extract_function_from_node`: a `FunctionDefinition` from a
`function_declaration` or `lexical_declaration` node.  The final Python
`if function_name:` is falsy both for `None` and for the empty string. -/
def extract_function_from_node (node : Node) (script_path : String) : Option FunctionDefinition :=
  match resolvedFunctionName node with
  | none => none
  | some function_name =>
    if function_name == "" then none
    else some
      { name := function_name
        start_point := node.start_point
        end_point := node.end_point
        source_code := node.text
        file_path := some script_path }

/-- `extract_class_from_node`: a `ClassDefinition` from a
`class_declaration` or `abstract_class_declaration` node. -/
def extract_class_from_node (node : Node) (script_path : String) : Option ClassDefinition :=
  (node.child_by_field_name "name").map (fun name_node =>
    { name := name_node.text
      start_point := node.start_point
      end_point := node.end_point
      source_code := node.text
      file_path := some script_path })

/-- `extract_interface_from_node`. -/
def extract_interface_from_node (node : Node) (script_path : String) : Option InterfaceDefinition :=
  (node.child_by_field_name "name").map (fun name_node =>
    { name := name_node.text
      start_point := node.start_point
      end_point := node.end_point
      source_code := node.text
      file_path := some script_path })

/-- `extract_type_alias_from_node`. -/
def extract_type_alias_from_node (node : Node) (script_path : String) : Option TypeAliasDefinition :=
  (node.child_by_field_name "name").map (fun name_node =>
    { name := name_node.text
      start_point := node.start_point
      end_point := node.end_point
      source_code := node.text
      file_path := some script_path })

/-- `extract_enum_from_node`. -/
def extract_enum_from_node (node : Node) (script_path : String) : Option EnumDefinition :=
  (node.child_by_field_name "name").map (fun name_node =>
    { name := name_node.text
      start_point := node.start_point
      end_point := node.end_point
      source_code := node.text
      file_path := some script_path })

/-- `extract_export_from_node`: default or named/type-only exports from an
`export_statement` node.  A `default` token anywhere among the children
short-circuits to a single default record. -/
def extract_export_from_node (node : Node) (script_path : String) : List ExportStatement :=
  let has_default := node.children.any (fun c => c.kind == "default" || c.text == "default")
  if has_default then
    [{ name := "default"
       local_name := none
       is_default := true
       is_type_only := false
       start_point := node.start_point
       end_point := node.end_point
       source_code := node.text
       file_path := some script_path }]
  else
    let is_type_only := (node.children.zip node.children.tail).any (fun p =>
      (p.1.kind == "type_identifier" || p.1.text == "type") && p.2.kind == "export_clause")
    match find_node node.children (fun n => n.kind == "export_clause") with
    | none => []
    | some export_clause =>
      export_clause.children.flatMap (fun child =>
        if child.kind == "export_specifier" then
          match child.children.filter (fun c => c.kind == "identifier") with
          | [a, b] =>
            [{ name := b.text
               local_name := some a.text
               is_default := false
               is_type_only := is_type_only
               start_point := node.start_point
               end_point := node.end_point
               source_code := node.text
               file_path := some script_path }]
          | [a] =>
            [{ name := a.text
               local_name := none
               is_default := false
               is_type_only := is_type_only
               start_point := node.start_point
               end_point := node.end_point
               source_code := node.text
               file_path := some script_path }]
          | _ => []
        else [])

/-- The mutable scan state of the member loop in
`extract_methods_from_class`. -/
structure MethodScan where
  is_static : Bool := false
  is_async : Bool := false
  is_private : Bool := false
  is_getter : Bool := false
  is_setter : Bool := false
  is_constructor : Bool := false
  method_name : Option String := none
deriving Repr, DecidableEq

/-- One iteration of the member loop of `extract_methods_from_class`: the
modifier `elif` chain (an `accessibility_modifier` is only tested for
`private`; any other child's text is compared against the four modifier
keywords), then the separate name-resolution `if` chain. -/
def scanMethodChild (s : MethodScan) (mc : Node) : MethodScan :=
  let s1 :=
    if mc.kind == "accessibility_modifier" then
      if mc.text == "private" then { s with is_private := true } else s
    else if mc.text == "static" then { s with is_static := true }
    else if mc.text == "async" then { s with is_async := true }
    else if mc.text == "get" then { s with is_getter := true }
    else if mc.text == "set" then { s with is_setter := true }
    else s
  if mc.kind == "property_identifier" then
    { s1 with
      method_name := some mc.text
      is_constructor := s1.is_constructor || mc.text == "constructor" }
  else if mc.kind == "private_property_identifier" then
    { s1 with method_name := some mc.text, is_private := true }
  else s1

/-- `extract_methods_from_class`: `MethodDefinition`s from the direct
`method_definition` members of the node's `class_body`. -/
def extract_methods_from_class (node : Node) (class_name : String) (script_path : String) :
    List MethodDefinition :=
  match find_node node.children (fun n => n.kind == "class_body") with
  | none => []
  | some class_body =>
    class_body.children.flatMap (fun child =>
      if child.kind == "method_definition" then
        let s := child.children.foldl scanMethodChild {}
        match s.method_name with
        | some method_name =>
          if method_name == "" then []
          else
            [{ name := method_name
               class_name := class_name
               is_static := s.is_static
               is_async := s.is_async
               is_private := s.is_private
               is_getter := s.is_getter
               is_setter := s.is_setter
               is_constructor := s.is_constructor
               start_point := child.start_point
               end_point := child.end_point
               source_code := child.text
               file_path := some script_path }]
        | none => []
      else [])

/-! ## The declaration walker (`extractor.py`) -/

/-- The body of one iteration of the inner loop of the `export_statement`
branch of `_extract_code_parts`: unwrap one level and extract the inner
declaration (a lexical declaration is only tried as a function here, never
as a require). -/
def processExportChild (script_path : String) (cf : TypeScriptCodeFile) (export_child : Node) :
    TypeScriptCodeFile :=
  if export_child.kind == "function_declaration" then
    match extract_function_from_node export_child script_path with
    | some function_def =>
      { cf with provides_function_definition :=
          cf.provides_function_definition ++ [function_def] }
    | none => cf
  else if export_child.kind == "class_declaration" ||
      export_child.kind == "abstract_class_declaration" then
    match extract_class_from_node export_child script_path with
    | some class_def =>
      { cf with
        provides_class_definition := cf.provides_class_definition ++ [class_def]
        provides_method_definition := cf.provides_method_definition ++
          extract_methods_from_class export_child class_def.name script_path }
    | none => cf
  else if export_child.kind == "lexical_declaration" then
    match extract_function_from_node export_child script_path with
    | some function_def =>
      { cf with provides_function_definition :=
          cf.provides_function_definition ++ [function_def] }
    | none => cf
  else if export_child.kind == "interface_declaration" then
    match extract_interface_from_node export_child script_path with
    | some interface_def =>
      { cf with provides_interface_definition :=
          cf.provides_interface_definition ++ [interface_def] }
    | none => cf
  else if export_child.kind == "type_alias_declaration" then
    match extract_type_alias_from_node export_child script_path with
    | some type_alias_def =>
      { cf with provides_type_alias := cf.provides_type_alias ++ [type_alias_def] }
    | none => cf
  else if export_child.kind == "enum_declaration" then
    match extract_enum_from_node export_child script_path with
    | some enum_def =>
      { cf with provides_enum_definition := cf.provides_enum_definition ++ [enum_def] }
    | none => cf
  else cf

/-- The body of one iteration of `_extract_code_parts`: dispatch on the
child's node kind and append the produced records to the code file's
lists. -/
def processChild (script_path : String) (code_file : TypeScriptCodeFile) (child : Node) :
    TypeScriptCodeFile :=
  if child.kind == "import_statement" then
    { code_file with depends_on :=
        code_file.depends_on ++ extract_import_from_node child script_path }
  else if child.kind == "function_declaration" then
    match extract_function_from_node child script_path with
    | some function_def =>
      { code_file with provides_function_definition :=
          code_file.provides_function_definition ++ [function_def] }
    | none => code_file
  else if child.kind == "lexical_declaration" then
    let require_imports := extract_require_from_node child script_path
    if !require_imports.isEmpty then
      { code_file with depends_on := code_file.depends_on ++ require_imports }
    else
      match extract_function_from_node child script_path with
      | some function_def =>
        { code_file with provides_function_definition :=
            code_file.provides_function_definition ++ [function_def] }
      | none => code_file
  else if child.kind == "class_declaration" || child.kind == "abstract_class_declaration" then
    match extract_class_from_node child script_path with
    | some class_def =>
      { code_file with
        provides_class_definition := code_file.provides_class_definition ++ [class_def]
        provides_method_definition := code_file.provides_method_definition ++
          extract_methods_from_class child class_def.name script_path }
    | none => code_file
  else if child.kind == "interface_declaration" then
    match extract_interface_from_node child script_path with
    | some interface_def =>
      { code_file with provides_interface_definition :=
          code_file.provides_interface_definition ++ [interface_def] }
    | none => code_file
  else if child.kind == "type_alias_declaration" then
    match extract_type_alias_from_node child script_path with
    | some type_alias_def =>
      { code_file with provides_type_alias :=
          code_file.provides_type_alias ++ [type_alias_def] }
    | none => code_file
  else if child.kind == "enum_declaration" then
    match extract_enum_from_node child script_path with
    | some enum_def =>
      { code_file with provides_enum_definition :=
          code_file.provides_enum_definition ++ [enum_def] }
    | none => code_file
  else if child.kind == "export_statement" then
    let reexport_imports := extract_reexport_from_node child script_path
    if !reexport_imports.isEmpty then
      { code_file with depends_on := code_file.depends_on ++ reexport_imports }
    else
      let code_file :=
        { code_file with exports :=
            code_file.exports ++ extract_export_from_node child script_path }
      child.children.foldl (processExportChild script_path) code_file
  else code_file

/-- The per-child `try`/`except` of `_extract_code_parts`: a walker over the
top-level children, parameterised by the child step.  A step ending in
`Except.error` leaves the accumulated code file untouched and the walk
continues with the next child; the walker itself is a total function and so
never propagates an error to the caller. -/
def walkChildren (step : Node → TypeScriptCodeFile → Except String TypeScriptCodeFile)
    (children : List Node) (code_file : TypeScriptCodeFile) : TypeScriptCodeFile :=
  children.foldl (fun acc c =>
    match step c acc with
    | .ok next => next
    | .error _ => acc) code_file

/-- The actual child step of `_extract_code_parts`: in the embedding every
translated operation is total, so the step always returns `Except.ok`. -/
def extractStep (script_path : String) (child : Node) (code_file : TypeScriptCodeFile) :
    Except String TypeScriptCodeFile :=
  .ok (processChild script_path code_file child)

/-- `_extract_code_parts`: walk the immediate children of the tree root. -/
def extract_code_parts (tree_root : Node) (script_path : String)
    (code_file : TypeScriptCodeFile) : TypeScriptCodeFile :=
  walkChildren (extractStep script_path) tree_root.children code_file

/-- `get_typescript_dependencies` (`extractor.py`): the single exposed
operation.  The parse step is external; the parsed source text and tree
stand as inputs. -/
def get_typescript_dependencies (repo_path script_path : String)
    (source_code : String) (source_code_tree : Node)
    (detailed_extraction : Bool) : TypeScriptCodeFile :=
  let file_path_relative_to_repo := script_path.drop (repo_path.length + 1)
  if !detailed_extraction then
    { name := file_path_relative_to_repo
      source_code := some source_code
      file_path := some script_path
      language := "typescript" }
  else
    extract_code_parts source_code_tree script_path
      { name := file_path_relative_to_repo
        source_code := none
        file_path := some script_path
        language := "typescript" }

/-! ## Spans and raw text

Tree-sitter guarantees that each node's `text` is the substring of the
source file between its start and end points.  `sliceAt` recomputes that
substring from (row, column) points; `spansOkToDepth` is the decidable
statement that a node and its descendants down to a given depth satisfy
the guarantee. -/

/-- Characters `[a, b)` of one line. -/
def lineSlice (l : String) (a b : Nat) : String :=
  ((l.toList.drop a).take (b - a)).asString

/-- Split a character list into newline-separated chunks (accumulator holds
the current chunk reversed). -/
def splitLinesAux : List Char → List Char → List String
  | [], acc => [acc.reverse.asString]
  | c :: cs, acc =>
    if c = '\n' then acc.reverse.asString :: splitLinesAux cs []
    else splitLinesAux cs (c :: acc)

/-- The newline-separated lines of a file. -/
def splitLines (s : String) : List String :=
  splitLinesAux s.toList []

/-- The substring of `file` between the (row, column) points `sp` and
`ep`. -/
def sliceAt (file : String) (sp ep : Nat × Nat) : String :=
  let lines := splitLines file
  if sp.1 == ep.1 then lineSlice (lines.getD sp.1 "") sp.2 ep.2
  else
    String.intercalate "\n"
      ([((lines.getD sp.1 "").toList.drop sp.2).asString] ++
        ((lines.drop (sp.1 + 1)).take (ep.1 - sp.1 - 1)) ++
        [lineSlice (lines.getD ep.1 "") 0 ep.2])

/-- The tree-sitter text/span guarantee at one node. -/
def nodeSpanOk (file : String) (n : Node) : Bool :=
  n.text == sliceAt file n.start_point n.end_point

/-- The guarantee for a node and its descendants down to the given
depth. -/
def spansOkToDepth (file : String) (k : Nat) : Node → Bool :=
  Nat.rec (motive := fun _ => Node → Bool)
    (fun n => nodeSpanOk file n)
    (fun _ ih n => nodeSpanOk file n && n.children.all ih) k

/-- A raw text together with a span agrees with the file. -/
def spanAgrees (file src : String) (sp ep : Nat × Nat) : Prop :=
  src = sliceAt file sp ep

/-- Every record of every list of the code unit has its raw text equal to
the file substring at its span. -/
def codeFileSpansOk (file : String) (cf : TypeScriptCodeFile) : Prop :=
  (∀ r ∈ cf.depends_on, spanAgrees file r.source_code r.start_point r.end_point) ∧
  (∀ r ∈ cf.provides_function_definition, spanAgrees file r.source_code r.start_point r.end_point) ∧
  (∀ r ∈ cf.provides_class_definition, spanAgrees file r.source_code r.start_point r.end_point) ∧
  (∀ r ∈ cf.provides_interface_definition, spanAgrees file r.source_code r.start_point r.end_point) ∧
  (∀ r ∈ cf.provides_type_alias, spanAgrees file r.source_code r.start_point r.end_point) ∧
  (∀ r ∈ cf.provides_enum_definition, spanAgrees file r.source_code r.start_point r.end_point) ∧
  (∀ r ∈ cf.exports, spanAgrees file r.source_code r.start_point r.end_point) ∧
  (∀ r ∈ cf.provides_method_definition, spanAgrees file r.source_code r.start_point r.end_point)

/-! ## Concrete syntax trees for the scenarios of the spec -/

/-- An empty detailed-mode code unit for a given path, as
`get_typescript_dependencies` builds before walking. -/
def emptyUnit (rel script_path : String) : TypeScriptCodeFile :=
  { name := rel, source_code := none, file_path := some script_path,
    language := "typescript" }

/-- CST of `function f()\x7b\x7d` as it appears inside the default export,
columns 15 to 29 of row 0. -/
def fnDefaultDecl : Node :=
  .mk "function_declaration" (some "declaration") "function f()\x7b\x7d" (0, 15) (0, 29)
    [ .mk "function" none "function" (0, 15) (0, 23) [],
      .mk "identifier" (some "name") "f" (0, 24) (0, 25) [],
      .mk "formal_parameters" (some "parameters") "()" (0, 25) (0, 27) [],
      .mk "statement_block" (some "body") "\x7b\x7d" (0, 27) (0, 29) [] ]

/-- The source text `export default function f()\x7b\x7d`. -/
def exportDefaultSource : String := "export default function f()\x7b\x7d"

/-- CST of the statement `export default function f()\x7b\x7d`. -/
def exportDefaultNode : Node :=
  .mk "export_statement" none exportDefaultSource (0, 0) (0, 29)
    [ .mk "export" none "export" (0, 0) (0, 6) [],
      .mk "default" none "default" (0, 7) (0, 14) [],
      fnDefaultDecl ]

/-- Whole-file CST for `export default function f()\x7b\x7d`. -/
def exportDefaultTree : Node :=
  .mk "program" none exportDefaultSource (0, 0) (0, 29) [exportDefaultNode]

/-- The module-path string node of `export * from "./utils"`. -/
def utilsStringNode : Node :=
  .mk "string" (some "source") "\"./utils\"" (0, 14) (0, 23) []

/-- CST of `export * from "./utils"`. -/
def wildcardReexportNode : Node :=
  .mk "export_statement" none "export * from \"./utils\"" (0, 0) (0, 23)
    [ .mk "export" none "export" (0, 0) (0, 6) [],
      .mk "*" none "*" (0, 7) (0, 8) [],
      .mk "from" none "from" (0, 9) (0, 13) [],
      utilsStringNode ]

/-- Whole-file CST for `export * from "./utils"`. -/
def wildcardReexportTree : Node :=
  .mk "program" none "export * from \"./utils\"" (0, 0) (0, 23) [wildcardReexportNode]

/-- CST of a malformed import statement `import x from` whose module-path
string is missing. -/
def badImportNode : Node :=
  .mk "import_statement" none "import x from" (0, 0) (0, 13)
    [ .mk "import" none "import" (0, 0) (0, 6) [],
      .mk "import_clause" none "x" (0, 7) (0, 8)
        [ .mk "identifier" none "x" (0, 7) (0, 8) [] ],
      .mk "from" none "from" (0, 9) (0, 13) [] ]

/-- CST of `import React from "react"` on row 1. -/
def goodImportNode : Node :=
  .mk "import_statement" none "import React from \"react\"" (1, 0) (1, 25)
    [ .mk "import" none "import" (1, 0) (1, 6) [],
      .mk "import_clause" none "React" (1, 7) (1, 12)
        [ .mk "identifier" none "React" (1, 7) (1, 12) [] ],
      .mk "from" none "from" (1, 13) (1, 17) [],
      .mk "string" (some "source") "\"react\"" (1, 18) (1, 25) [] ]

/-- A two-statement file whose first import statement is malformed. -/
def mixedImportTree : Node :=
  .mk "program" none "import x from\nimport React from \"react\"" (0, 0) (1, 25)
    [badImportNode, goodImportNode]

/-- CST of `const f = () => \x7b\x7d, g = 2;`: one lexical declaration
binding two variables, the first to an arrow function. -/
def multiVarArrowNode : Node :=
  .mk "lexical_declaration" none "const f = () => \x7b\x7d, g = 2;" (0, 0) (0, 26)
    [ .mk "const" none "const" (0, 0) (0, 5) [],
      .mk "variable_declarator" none "f = () => \x7b\x7d" (0, 6) (0, 18)
        [ .mk "identifier" (some "name") "f" (0, 6) (0, 7) [],
          .mk "=" none "=" (0, 8) (0, 9) [],
          .mk "arrow_function" (some "value") "() => \x7b\x7d" (0, 10) (0, 18)
            [ .mk "formal_parameters" (some "parameters") "()" (0, 10) (0, 12) [],
              .mk "=>" none "=>" (0, 13) (0, 15) [],
              .mk "statement_block" (some "body") "\x7b\x7d" (0, 16) (0, 18) [] ] ],
      .mk "," none "," (0, 18) (0, 19) [],
      .mk "variable_declarator" none "g = 2" (0, 20) (0, 25)
        [ .mk "identifier" (some "name") "g" (0, 20) (0, 21) [],
          .mk "=" none "=" (0, 22) (0, 23) [],
          .mk "number" (some "value") "2" (0, 24) (0, 25) [] ],
      .mk ";" none ";" (0, 25) (0, 26) [] ]

/-- The private-field-style name token `#secret`. -/
def privateNameTokenNode : Node :=
  .mk "private_property_identifier" (some "name") "#secret" (1, 2) (1, 9) []

/-- CST of a class member `#secret() \x7b\x7d` named by a
private-field-style token. -/
def privateMethodNode : Node :=
  .mk "method_definition" none "#secret() \x7b\x7d" (1, 2) (1, 14)
    [ privateNameTokenNode,
      .mk "formal_parameters" (some "parameters") "()" (1, 9) (1, 11) [],
      .mk "statement_block" (some "body") "\x7b\x7d" (1, 12) (1, 14) [] ]

/-- The class body holding only the `#secret` member. -/
def privateClassBodyNode : Node :=
  .mk "class_body" (some "body") "..." (0, 8) (2, 1) [privateMethodNode]

/-- CST of a class `S` whose only member is the private-field-style method
`#secret() \x7b\x7d`. -/
def privateFieldClassNode : Node :=
  .mk "class_declaration" none "class S ..." (0, 0) (2, 1)
    [ .mk "class" none "class" (0, 0) (0, 5) [],
      .mk "type_identifier" (some "name") "S" (0, 6) (0, 7) [],
      privateClassBodyNode ]

/-- CST of a class member named `constructor` that is also marked `static`
and `async`. -/
def staticAsyncCtorNode : Node :=
  .mk "method_definition" none "static async constructor() \x7b\x7d" (1, 2) (1, 31)
    [ .mk "static" none "static" (1, 2) (1, 8) [],
      .mk "async" none "async" (1, 9) (1, 14) [],
      .mk "property_identifier" (some "name") "constructor" (1, 15) (1, 26) [],
      .mk "formal_parameters" (some "parameters") "()" (1, 26) (1, 28) [],
      .mk "statement_block" (some "body") "\x7b\x7d" (1, 29) (1, 31) [] ]

/-- CST of a class `K` whose only member is the modified constructor. -/
def modifiedCtorClassNode : Node :=
  .mk "class_declaration" none "class K ..." (0, 0) (2, 1)
    [ .mk "class" none "class" (0, 0) (0, 5) [],
      .mk "type_identifier" (some "name") "K" (0, 6) (0, 7) [],
      .mk "class_body" (some "body") "..." (0, 8) (2, 1) [staticAsyncCtorNode] ]

/-- A class member of method kind whose name token text is `kw` and that
carries no modifier keywords, e.g. `get() \x7b\x7d`. -/
def bareKeywordMethodNode (kw : String) (row : Nat) : Node :=
  .mk "method_definition" none (kw ++ "() \x7b\x7d") (row, 2) (row, 2 + kw.length + 5)
    [ .mk "property_identifier" (some "name") kw (row, 2) (row, 2 + kw.length) [],
      .mk "formal_parameters" (some "parameters") "()" (row, 2 + kw.length) (row, 2 + kw.length + 2) [],
      .mk "statement_block" (some "body") "\x7b\x7d" (row, 2 + kw.length + 3) (row, 2 + kw.length + 5) [] ]

/-- CST of a class `G` whose members are the four methods `get() \x7b\x7d`,
`set() \x7b\x7d`, `static() \x7b\x7d` and `async() \x7b\x7d`, none carrying
any modifier keyword. -/
def keywordNamedMethodsClassNode : Node :=
  .mk "class_declaration" none "class G ..." (0, 0) (5, 1)
    [ .mk "class" none "class" (0, 0) (0, 5) [],
      .mk "type_identifier" (some "name") "G" (0, 6) (0, 7) [],
      .mk "class_body" (some "body") "..." (0, 8) (5, 1)
        [ bareKeywordMethodNode "get" 1,
          bareKeywordMethodNode "set" 2,
          bareKeywordMethodNode "static" 3,
          bareKeywordMethodNode "async" 4 ] ]

/-! ## Shared lemmas -/

/-- Fold preservation: a property of the accumulator survives a left fold
whose step preserves it on elements satisfying `Q`. -/
theorem foldl_preserves {α β : Type} (P : β → Prop) (Q : α → Prop) (f : β → α → β)
    (hstep : ∀ b a, Q a → P b → P (f b a)) :
    ∀ (l : List α) (b : β), (∀ a ∈ l, Q a) → P b → P (l.foldl f b) := by
  intro l
  induction l with
  | nil => intro b _ hb; exact hb
  | cons c cs ih =>
    intro b hQ hb
    exact ih (f b c) (fun a ha => hQ a (List.mem_cons_of_mem _ ha))
      (hstep b c (hQ c (List.mem_cons_self _ _)) hb)

/-- The inner export-unwrap step never touches the raw source text. -/
theorem processExportChild_source_code (p : String) (cf : TypeScriptCodeFile) (ec : Node) :
    (processExportChild p cf ec).source_code = cf.source_code := by
  unfold processExportChild
  repeat' split
  all_goals rfl

/-- The walker step never touches the raw source text. -/
theorem processChild_source_code (p : String) (cf : TypeScriptCodeFile) (c : Node) :
    (processChild p cf c).source_code = cf.source_code := by
  unfold processChild
  dsimp only
  repeat' split
  all_goals first
    | rfl
    | (refine foldl_preserves (fun x => x.source_code = cf.source_code) (fun _ => True)
        (processExportChild p)
        (fun b a _ hb => (processExportChild_source_code p b a).trans hb)
        _ _ (fun _ _ => trivial) ?_
       rfl)

/-- The walker over the actual step is a plain fold of `processChild`. -/
theorem walkChildren_extractStep (p : String) (l : List Node) (cf : TypeScriptCodeFile) :
    walkChildren (extractStep p) l cf = l.foldl (processChild p) cf := rfl

/-- `_extract_code_parts` never touches the raw source text. -/
theorem extract_code_parts_source_code (t : Node) (p : String) (cf : TypeScriptCodeFile) :
    (extract_code_parts t p cf).source_code = cf.source_code := by
  rw [extract_code_parts, walkChildren_extractStep]
  exact foldl_preserves (fun x => x.source_code = cf.source_code) (fun _ => True)
    (processChild p) (fun b a _ hb => (processChild_source_code p b a).trans hb)
    _ _ (fun _ _ => trivial) rfl

/-- All record lists of a code unit are empty. -/
def allListsEmpty (cf : TypeScriptCodeFile) : Prop :=
  cf.depends_on = [] ∧ cf.provides_function_definition = [] ∧
  cf.provides_class_definition = [] ∧ cf.provides_interface_definition = [] ∧
  cf.provides_type_alias = [] ∧ cf.provides_enum_definition = [] ∧
  cf.exports = [] ∧ cf.provides_method_definition = []

/-! ## Claims -/

/-- C5: for every repository root and file path, extraction with
`detailed_extraction = false` returns a unit whose raw source equals the
file text and whose record lists are all empty; extraction with
`detailed_extraction = true` returns a unit whose raw source is `none`;
hence no returned unit ever has both its raw source populated and a
non-empty record list. -/
theorem c5_mode_dichotomy (repo script src : String) (tree : Node) :
    ((get_typescript_dependencies repo script src tree false).source_code = some src ∧
      allListsEmpty (get_typescript_dependencies repo script src tree false)) ∧
    (get_typescript_dependencies repo script src tree true).source_code = none ∧
    (∀ d : Bool, (get_typescript_dependencies repo script src tree d).source_code = none ∨
      allListsEmpty (get_typescript_dependencies repo script src tree d)) := by
  refine ⟨⟨rfl, by exact ⟨rfl, rfl, rfl, rfl, rfl, rfl, rfl, rfl⟩⟩, ?_, ?_⟩
  · show (extract_code_parts tree script _).source_code = none
    exact extract_code_parts_source_code tree script _
  · intro d
    cases d with
    | false => exact Or.inr ⟨rfl, rfl, rfl, rfl, rfl, rfl, rfl, rfl⟩
    | true =>
      exact Or.inl (extract_code_parts_source_code tree script _)

/-- C1: an `export_statement` node among whose immediate children a
`default` keyword token occurs yields exactly one `ExportStatement`, named
`"default"` with `is_default = true`, and no named-export clause of the
node is parsed; concretely, `export default function f()\x7b\x7d` in
detailed mode yields exactly that one export record and exactly one
`FunctionDefinition` named `f`. -/
theorem c1_export_default_unique (n : Node) (p : String)
    (hd : n.children.any (fun c => c.kind == "default" || c.text == "default") = true) :
    extract_export_from_node n p =
      [{ name := "default", local_name := none, is_default := true, is_type_only := false,
         start_point := n.start_point, end_point := n.end_point,
         source_code := n.text, file_path := some p }] ∧
    (extract_code_parts exportDefaultTree "app.ts" (emptyUnit "app.ts" "app.ts")).exports =
      [{ name := "default", local_name := none, is_default := true, is_type_only := false,
         start_point := (0, 0), end_point := (0, 29),
         source_code := exportDefaultSource, file_path := some "app.ts" }] ∧
    (extract_code_parts exportDefaultTree "app.ts" (emptyUnit "app.ts" "app.ts")).provides_function_definition =
      [{ name := "f", start_point := (0, 15), end_point := (0, 29),
         source_code := "function f()\x7b\x7d", file_path := some "app.ts" }] := by
  refine ⟨?_, by decide, by decide⟩
  unfold extract_export_from_node
  simp only [hd, if_true]

/-- Witness for C1 at the concrete default-export statement. -/
theorem c1_export_default_unique_witness :
    exportDefaultNode.children.any
      (fun c => c.kind == "default" || c.text == "default") = true ∧
    extract_export_from_node exportDefaultNode "app.ts" =
      [{ name := "default", local_name := none, is_default := true, is_type_only := false,
         start_point := (0, 0), end_point := (0, 29),
         source_code := exportDefaultSource, file_path := some "app.ts" }] :=
  ⟨by decide, (c1_export_default_unique exportDefaultNode "app.ts" (by decide)).1⟩

/-- C3: on an export-statement node carrying a module string, the wildcard
check comes first: whenever a `*` token is among the children, re-export
extraction returns exactly one import record named `"*"` for that module,
whatever named clause the node may also hold; concretely
`export * from "./utils"` in detailed mode yields exactly one
`ImportStatement(name = "*", module = "./utils")` and zero
`ExportStatement`s. -/
theorem c3_wildcard_reexport (n : Node) (p : String) (m : Node)
    (hm : find_node n.children (fun c => c.kind == "string") = some m)
    (hw : n.children.any (fun c => c.kind == "*" || c.text == "*") = true) :
    extract_reexport_from_node n p = [mkImport "*" (stripQuotes m.text) n p] ∧
    (extract_code_parts wildcardReexportTree "u.ts" (emptyUnit "u.ts" "u.ts")).depends_on =
      [{ name := "*", module := "./utils", start_point := (0, 0), end_point := (0, 23),
         source_code := "export * from \"./utils\"", file_path := some "u.ts" }] ∧
    (extract_code_parts wildcardReexportTree "u.ts" (emptyUnit "u.ts" "u.ts")).exports = [] := by
  refine ⟨?_, by decide, by decide⟩
  unfold extract_reexport_from_node
  rw [hm]
  simp only [hw, if_true]

/-- Witness for C3 at the concrete wildcard re-export statement. -/
theorem c3_wildcard_reexport_witness :
    find_node wildcardReexportNode.children (fun c => c.kind == "string") =
      some utilsStringNode ∧
    wildcardReexportNode.children.any (fun c => c.kind == "*" || c.text == "*") = true ∧
    extract_reexport_from_node wildcardReexportNode "u.ts" =
      [mkImport "*" (stripQuotes utilsStringNode.text) wildcardReexportNode "u.ts"] :=
  ⟨by rfl, by decide,
    (c3_wildcard_reexport wildcardReexportNode "u.ts" utilsStringNode (by rfl) (by decide)).1⟩

/-- The first variable declarator of `const x = 5;`. -/
def constNumberDeclarator : Node :=
  .mk "variable_declarator" none "x = 5" (0, 6) (0, 11)
    [ .mk "identifier" (some "name") "x" (0, 6) (0, 7) [],
      .mk "=" none "=" (0, 8) (0, 9) [],
      .mk "number" (some "value") "5" (0, 10) (0, 11) [] ]

/-- CST of `const x = 5;`: a single binding whose initializer is neither an
arrow function nor a function expression. -/
def constNumberNode : Node :=
  .mk "lexical_declaration" none "const x = 5;" (0, 0) (0, 12)
    [ .mk "const" none "const" (0, 0) (0, 5) [],
      constNumberDeclarator,
      .mk ";" none ";" (0, 11) (0, 12) [] ]

/-- C6 counterexample: `const f = () => \x7b\x7d, g = 2;` declares two
variables and yet function extraction emits a record, named after the
first binding — refuting the claim that a binding statement declaring more
than one variable yields no record. -/
theorem c6_counterexample :
    (multiVarArrowNode.children.filter (fun c => c.kind == "variable_declarator")).length = 2 ∧
    extract_function_from_node multiVarArrowNode "m.ts" =
      some { name := "f", start_point := (0, 0), end_point := (0, 26),
             source_code := "const f = () => \x7b\x7d, g = 2;",
             file_path := some "m.ts" } := by
  decide

/-- C6 amended: function extraction inspects only the first variable
declarator of a lexical declaration.  If there is no declarator, or the
first declarator's initializer is neither an arrow function nor a function
expression, no record is emitted; if the first declarator binds an arrow
function to a non-empty name, one record named after that binding is
emitted regardless of how many further variables the statement declares. -/
theorem c6_first_declarator_rule (n : Node) (p : String)
    (hk : n.kind = "lexical_declaration") :
    (find_node n.children (fun c => c.kind == "variable_declarator") = none →
      extract_function_from_node n p = none) ∧
    (∀ d, find_node n.children (fun c => c.kind == "variable_declarator") = some d →
      find_node d.children (fun c => c.kind == "arrow_function") = none →
      find_node d.children (fun c => c.kind == "function_expression") = none →
      extract_function_from_node n p = none) ∧
    (∀ d af nm, find_node n.children (fun c => c.kind == "variable_declarator") = some d →
      find_node d.children (fun c => c.kind == "arrow_function") = some af →
      d.child_by_field_name "name" = some nm → nm.text ≠ "" →
      extract_function_from_node n p =
        some { name := nm.text, start_point := n.start_point, end_point := n.end_point,
               source_code := n.text, file_path := some p }) ∧
    (∀ d fe nm, find_node n.children (fun c => c.kind == "variable_declarator") = some d →
      find_node d.children (fun c => c.kind == "arrow_function") = none →
      find_node d.children (fun c => c.kind == "function_expression") = some fe →
      d.child_by_field_name "name" = some nm → nm.text ≠ "" →
      extract_function_from_node n p =
        some { name := nm.text, start_point := n.start_point, end_point := n.end_point,
               source_code := n.text, file_path := some p }) := by
  refine ⟨?_, ?_, ?_, ?_⟩
  · intro hnone
    simp [extract_function_from_node, resolvedFunctionName, hk, hnone]
  · intro d hd harrow hfexp
    simp [extract_function_from_node, resolvedFunctionName, hk, hd, harrow, hfexp]
  · intro d af nm hd harrow hname hne
    simp [extract_function_from_node, resolvedFunctionName, hk, hd, harrow, hname, hne]
  · intro d fe nm hd harrow hfexp hname hne
    simp [extract_function_from_node, resolvedFunctionName, hk, hd, harrow, hfexp, hname, hne]

/-- The first variable declarator of `const h = function named() \x7b\x7d;`:
a function-expression initializer whose inner name `named` is a grandchild
and therefore invisible to `child_by_field_name` on the declarator. -/
def funcExprDeclarator : Node :=
  .mk "variable_declarator" none "h = function named() \x7b\x7d" (0, 6) (0, 29)
    [ .mk "identifier" (some "name") "h" (0, 6) (0, 7) [],
      .mk "=" none "=" (0, 8) (0, 9) [],
      .mk "function_expression" (some "value") "function named() \x7b\x7d" (0, 10) (0, 29)
        [ .mk "function" none "function" (0, 10) (0, 18) [],
          .mk "identifier" (some "name") "named" (0, 19) (0, 24) [],
          .mk "formal_parameters" (some "parameters") "()" (0, 24) (0, 26) [],
          .mk "statement_block" (some "body") "\x7b\x7d" (0, 27) (0, 29) [] ] ]

/-- CST of `const h = function named() \x7b\x7d;`. -/
def funcExprNode : Node :=
  .mk "lexical_declaration" none "const h = function named() \x7b\x7d;" (0, 0) (0, 30)
    [ .mk "const" none "const" (0, 0) (0, 5) [],
      funcExprDeclarator,
      .mk ";" none ";" (0, 29) (0, 30) [] ]

/-- Witness for C6 amended: no record for `const x = 5;`, and a record
named after the outer binding for the function-expression form
`const h = function named() \x7b\x7d;`. -/
theorem c6_first_declarator_rule_witness :
    constNumberNode.kind = "lexical_declaration" ∧
    extract_function_from_node constNumberNode "m.ts" = none ∧
    funcExprNode.kind = "lexical_declaration" ∧
    extract_function_from_node funcExprNode "m.ts" =
      some { name := "h", start_point := (0, 0), end_point := (0, 30),
             source_code := "const h = function named() \x7b\x7d;",
             file_path := some "m.ts" } :=
  ⟨rfl,
    (c6_first_declarator_rule constNumberNode "m.ts" rfl).2.1
      constNumberDeclarator (by rfl) (by rfl) (by rfl),
    rfl,
    (c6_first_declarator_rule funcExprNode "m.ts" rfl).2.2.2
      funcExprDeclarator
      (Node.mk "function_expression" (some "value") "function named() \x7b\x7d" (0, 10) (0, 29)
        [ .mk "function" none "function" (0, 10) (0, 18) [],
          .mk "identifier" (some "name") "named" (0, 19) (0, 24) [],
          .mk "formal_parameters" (some "parameters") "()" (0, 24) (0, 26) [],
          .mk "statement_block" (some "body") "\x7b\x7d" (0, 27) (0, 29) [] ])
      (Node.mk "identifier" (some "name") "h" (0, 6) (0, 7) [])
      (by rfl) (by rfl) (by rfl) (by rfl) (by decide)⟩

/-- C10: a class member of method kind whose name token text is `get`,
`set`, `static` or `async` and that carries no modifier keywords is
emitted with that text as its name and with the corresponding flag set,
because modifier detection compares the text of every child token —
including the name token — against the keywords. -/
theorem c10_keyword_named_methods (cn p : String) :
    (extract_methods_from_class keywordNamedMethodsClassNode cn p).map
      (fun r => (r.name, r.is_getter, r.is_setter, r.is_static, r.is_async)) =
      [("get", true, false, false, false),
       ("set", false, true, false, false),
       ("static", false, false, true, false),
       ("async", false, false, false, true)] := by
  rfl

/-- C7 counterexample: the class member `#secret() \x7b\x7d` is emitted
with name `"#secret"` — the private marker is *not* stripped — refuting
the claim that the name is the token text with the marker removed. -/
theorem c7_counterexample :
    (extract_methods_from_class privateFieldClassNode "S" "s.ts").map
      (fun r => (r.name, r.is_private)) = [("#secret", true)] ∧
    ∀ r ∈ extract_methods_from_class privateFieldClassNode "S" "s.ts",
      r.name ≠ "secret" := by
  decide

/-! ## Characterisation of the method-member scan -/

/-- A child token that resolves the member name in
`extract_methods_from_class`. -/
def isNameToken (c : Node) : Bool :=
  c.kind == "property_identifier" || c.kind == "private_property_identifier"

/-- The last name-resolving token of a member's children (the loop
overwrites the name on every such token). -/
def lastNameToken (cs : List Node) : Option Node :=
  cs.foldl (fun acc c => if isNameToken c then some c else acc) none

theorem scanMethodChild_method_name (s : MethodScan) (mc : Node) :
    (scanMethodChild s mc).method_name =
      if isNameToken mc then some mc.text else s.method_name := by
  unfold scanMethodChild isNameToken
  dsimp only
  repeat' split
  all_goals simp_all [beq_eq_decide]

theorem scanMethodChild_is_constructor (s : MethodScan) (mc : Node) :
    (scanMethodChild s mc).is_constructor =
      (s.is_constructor || (mc.kind == "property_identifier" && mc.text == "constructor")) := by
  unfold scanMethodChild
  dsimp only
  repeat' split
  all_goals simp_all [beq_eq_decide]

theorem scanMethodChild_is_private (s : MethodScan) (mc : Node) :
    (scanMethodChild s mc).is_private =
      (s.is_private || (mc.kind == "accessibility_modifier" && mc.text == "private") ||
        (mc.kind == "private_property_identifier")) := by
  unfold scanMethodChild
  dsimp only
  repeat' split
  all_goals simp_all [beq_eq_decide]

theorem lastNameToken_absorb : ∀ (cs : List Node) (a : Option Node),
    cs.foldl (fun acc c => if isNameToken c then some c else acc) a =
      match lastNameToken cs with
      | some t => some t
      | none => a := by
  intro cs
  unfold lastNameToken
  induction cs with
  | nil => intro a; rfl
  | cons c cs ih =>
    intro a
    rw [List.foldl_cons, List.foldl_cons, ih, ih (if isNameToken c then some c else none)]
    rcases hfn : cs.foldl (fun acc c => if isNameToken c then some c else acc) none with _ | t <;>
      by_cases h : isNameToken c <;> simp [h, hfn]

theorem lastNameToken_mem : ∀ (cs : List Node) (t : Node),
    lastNameToken cs = some t → t ∈ cs ∧ isNameToken t = true := by
  intro cs
  induction cs with
  | nil => intro t ht; cases ht
  | cons c cs ih =>
    intro t ht
    rw [show lastNameToken (c :: cs) =
        cs.foldl (fun acc c => if isNameToken c then some c else acc)
          (if isNameToken c then some c else none) from rfl,
      lastNameToken_absorb] at ht
    rcases hfn : lastNameToken cs with _ | u
    · rw [hfn] at ht
      by_cases h : isNameToken c
      · simp [h] at ht
        subst ht
        exact ⟨List.mem_cons_self _ _, h⟩
      · simp [h] at ht
    · rw [hfn] at ht
      simp only [Option.some.injEq] at ht
      obtain ⟨hmem, hname⟩ := ih u hfn
      rw [← ht]
      exact ⟨List.mem_cons_of_mem _ hmem, hname⟩

theorem foldl_scan_method_name : ∀ (cs : List Node) (s : MethodScan),
    (cs.foldl scanMethodChild s).method_name =
      match lastNameToken cs with
      | some t => some t.text
      | none => s.method_name := by
  intro cs
  induction cs with
  | nil => intro s; rfl
  | cons c cs ih =>
    intro s
    rw [List.foldl_cons, ih,
      show lastNameToken (c :: cs) =
        cs.foldl (fun acc c => if isNameToken c then some c else acc)
          (if isNameToken c then some c else none) from rfl,
      lastNameToken_absorb]
    rcases hfn : lastNameToken cs with _ | u <;>
      by_cases h : isNameToken c <;>
      simp [h, hfn, scanMethodChild_method_name]

theorem foldl_scan_is_constructor : ∀ (cs : List Node) (s : MethodScan),
    (cs.foldl scanMethodChild s).is_constructor =
      (s.is_constructor ||
        cs.any (fun c => c.kind == "property_identifier" && c.text == "constructor")) := by
  intro cs
  induction cs with
  | nil => intro s; simp
  | cons c cs ih =>
    intro s
    rw [List.foldl_cons, ih, scanMethodChild_is_constructor]
    simp [Bool.or_assoc]

theorem foldl_scan_is_private : ∀ (cs : List Node) (s : MethodScan),
    (cs.foldl scanMethodChild s).is_private =
      (s.is_private ||
        cs.any (fun c => (c.kind == "accessibility_modifier" && c.text == "private") ||
          c.kind == "private_property_identifier")) := by
  intro cs
  induction cs with
  | nil => intro s; simp
  | cons c cs ih =>
    intro s
    rw [List.foldl_cons, ih, scanMethodChild_is_private]
    simp [Bool.or_assoc]

/-- Characterisation of every record emitted by
`extract_methods_from_class`: it stems from a `method_definition` member of
the class body, takes its name verbatim from the member's last
name-resolving token, and its constructor/private flags are the described
scans of the member's children. -/
theorem extract_methods_mem (n : Node) (cn p : String) (r : MethodDefinition)
    (hr : r ∈ extract_methods_from_class n cn p) :
    ∃ body, find_node n.children (fun c => c.kind == "class_body") = some body ∧
    ∃ m, m ∈ body.children ∧ m.kind = "method_definition" ∧
    ∃ t, lastNameToken m.children = some t ∧ r.name = t.text ∧ r.name ≠ "" ∧
      r.is_constructor = m.children.any
        (fun c => c.kind == "property_identifier" && c.text == "constructor") ∧
      r.is_private = m.children.any
        (fun c => (c.kind == "accessibility_modifier" && c.text == "private") ||
          c.kind == "private_property_identifier") ∧
      r.source_code = m.text ∧ r.start_point = m.start_point ∧
      r.end_point = m.end_point ∧ r.class_name = cn := by
  unfold extract_methods_from_class at hr
  rcases hbody : find_node n.children (fun c => c.kind == "class_body") with _ | body
  · rw [hbody] at hr; cases hr
  · rw [hbody] at hr
    refine ⟨body, rfl, ?_⟩
    rw [List.mem_flatMap] at hr
    obtain ⟨m, hm, hrm⟩ := hr
    by_cases hkind : (m.kind == "method_definition") = true
    · rw [if_pos hkind] at hrm
      dsimp only at hrm
      rcases hname : (List.foldl scanMethodChild {} m.children).method_name with _ | nm
      · rw [hname] at hrm; cases hrm
      · rw [hname] at hrm
        dsimp only at hrm
        by_cases hne : (nm == "") = true
        · rw [if_pos hne] at hrm; cases hrm
        · rw [if_neg hne, List.mem_singleton] at hrm
          rw [foldl_scan_method_name] at hname
          rcases hlast : lastNameToken m.children with _ | t
          · rw [hlast] at hname; cases hname
          · rw [hlast] at hname
            refine ⟨m, hm, by simpa using hkind, t, hlast, ?_⟩
            subst hrm
            simp only
            have hnm : nm = t.text := (by simpa using hname : t.text = nm).symm
            refine ⟨hnm, ?_, ?_, ?_, trivial, trivial, trivial, trivial⟩
            · simpa using hne
            · rw [foldl_scan_is_constructor]; rfl
            · rw [foldl_scan_is_private]; rfl
    · rw [if_neg hkind] at hrm; cases hrm

/-- Any two members of a list of length at most one are equal. -/
theorem eq_of_len_le_one {α : Type} {l : List α} (h : l.length ≤ 1) {a b : α}
    (ha : a ∈ l) (hb : b ∈ l) : a = b := by
  match l with
  | [] => cases ha
  | [x] =>
    rw [List.mem_singleton] at ha hb
    rw [ha, hb]
  | x :: y :: t =>
    simp only [List.length_cons] at h
    omega

/-- C7 amended: for every class member of method kind whose name-resolving
token (the last `property_identifier` or `private_property_identifier`
among its children, per the scan loop) is a private-field-style token `t`,
method extraction emits a record for that member whose name is exactly the
token text `t.text` — the `#` marker is kept, not stripped — and whose
private flag is forced to true. -/
theorem c7_private_marker_kept (n : Node) (cn p : String) (body m t : Node)
    (hbody : find_node n.children (fun c => c.kind == "class_body") = some body)
    (hm : m ∈ body.children) (hmk : m.kind = "method_definition")
    (hlast : lastNameToken m.children = some t)
    (htk : t.kind = "private_property_identifier")
    (hne : t.text ≠ "") :
    t ∈ m.children ∧
    ∃ r ∈ extract_methods_from_class n cn p, r.name = t.text ∧ r.is_private = true := by
  obtain ⟨htm, htname⟩ := lastNameToken_mem m.children t hlast
  have hs_name : (List.foldl scanMethodChild {} m.children).method_name = some t.text := by
    rw [foldl_scan_method_name, hlast]
  have hs_priv : (List.foldl scanMethodChild {} m.children).is_private = true := by
    rw [foldl_scan_is_private]
    simp only [Bool.false_or]
    exact List.any_eq_true.mpr ⟨t, htm, by simp [htk]⟩
  refine ⟨htm, ?_⟩
  refine ⟨{ name := t.text, class_name := cn,
            is_static := (List.foldl scanMethodChild {} m.children).is_static,
            is_async := (List.foldl scanMethodChild {} m.children).is_async,
            is_private := (List.foldl scanMethodChild {} m.children).is_private,
            is_getter := (List.foldl scanMethodChild {} m.children).is_getter,
            is_setter := (List.foldl scanMethodChild {} m.children).is_setter,
            is_constructor := (List.foldl scanMethodChild {} m.children).is_constructor,
            start_point := m.start_point, end_point := m.end_point,
            source_code := m.text, file_path := some p }, ?_, rfl, hs_priv⟩
  unfold extract_methods_from_class
  rw [hbody, List.mem_flatMap]
  refine ⟨m, hm, ?_⟩
  rw [if_pos (by simp [hmk])]
  dsimp only
  rw [hs_name]
  dsimp only
  rw [if_neg (by simp [hne]), List.mem_singleton]

/-- Witness for C7 amended at the `#secret` member of class `S`: the name
of the emitted record is `"#secret"`, marker included, and the record is
private. -/
theorem c7_private_marker_kept_witness :
    find_node privateFieldClassNode.children (fun c => c.kind == "class_body") =
      some privateClassBodyNode ∧
    privateMethodNode ∈ privateClassBodyNode.children ∧
    privateMethodNode.kind = "method_definition" ∧
    lastNameToken privateMethodNode.children = some privateNameTokenNode ∧
    privateNameTokenNode.kind = "private_property_identifier" ∧
    privateNameTokenNode.text ≠ "" ∧
    (privateNameTokenNode ∈ privateMethodNode.children ∧
      ∃ r ∈ extract_methods_from_class privateFieldClassNode "S" "s.ts",
        r.name = privateNameTokenNode.text ∧ r.is_private = true) :=
  ⟨by rfl, List.mem_singleton.mpr rfl, rfl, by rfl, rfl, by decide,
    c7_private_marker_kept privateFieldClassNode "S" "s.ts"
      privateClassBodyNode privateMethodNode privateNameTokenNode
      (by rfl) (List.mem_singleton.mpr rfl) rfl (by rfl) rfl (by decide)⟩

/-- C9: assuming the tree-sitter well-formedness facts that a member
carries at most one name-resolving token and that a private-field name
token is never literally `constructor` (it always carries its `#` marker),
every emitted method record has `is_constructor = true` exactly when its
name is `"constructor"`; in particular a member literally named
`constructor` has the flag set whatever other modifier flags are also
set. -/
theorem c9_constructor_iff (n : Node) (cn p : String)
    (h1 : ∀ body ∈ n.children, ∀ m ∈ body.children,
      (m.children.filter isNameToken).length ≤ 1)
    (h2 : ∀ body ∈ n.children, ∀ m ∈ body.children, ∀ c ∈ m.children,
      c.kind = "private_property_identifier" → c.text ≠ "constructor") :
    ∀ r ∈ extract_methods_from_class n cn p,
      (r.is_constructor = true ↔ r.name = "constructor") := by
  intro r hr
  obtain ⟨body, hbody, m, hm, hmk, t, hlast, hname, hne, hctor, hpriv, _⟩ :=
    extract_methods_mem n cn p r hr
  have hbodymem : body ∈ n.children := List.mem_of_find?_eq_some hbody
  obtain ⟨htm, htname⟩ := lastNameToken_mem m.children t hlast
  constructor
  · intro hc
    rw [hctor] at hc
    obtain ⟨c, hcm, hcp⟩ := List.any_eq_true.mp hc
    have hcp1 : c.kind = "property_identifier" := by
      have := (Bool.and_eq_true _ _).mp hcp |>.1
      simpa using this
    have hcp2 : c.text = "constructor" := by
      have := (Bool.and_eq_true _ _).mp hcp |>.2
      simpa using this
    have hcf : c ∈ m.children.filter isNameToken :=
      List.mem_filter.mpr ⟨hcm, by simp [isNameToken, hcp1]⟩
    have htf : t ∈ m.children.filter isNameToken :=
      List.mem_filter.mpr ⟨htm, htname⟩
    have hct : c = t := eq_of_len_le_one (h1 body hbodymem m hm) hcf htf
    rw [hname, ← hct, hcp2]
  · intro hc
    have httext : t.text = "constructor" := by rw [← hname]; exact hc
    have hkor : t.kind = "property_identifier" ∨ t.kind = "private_property_identifier" := by
      simpa [isNameToken] using htname
    have hkind : t.kind = "property_identifier" := by
      rcases hkor with h | h
      · exact h
      · exact absurd httext (h2 body hbodymem m hm t htm h)
    rw [hctor]
    exact List.any_eq_true.mpr ⟨t, htm, by simp [hkind, httext]⟩

/-- The record emitted for the member `static async constructor() \x7b\x7d`
of the class `K`. -/
def ctorMethodRecord : MethodDefinition :=
  { name := "constructor", class_name := "K", is_static := true, is_async := true,
    is_private := false, is_getter := false, is_setter := false, is_constructor := true,
    start_point := (1, 2), end_point := (1, 31),
    source_code := "static async constructor() \x7b\x7d", file_path := some "k.ts" }

/-- Witness for C9 at a constructor marked `static` and `async`. -/
theorem c9_constructor_iff_witness :
    (∀ body ∈ modifiedCtorClassNode.children, ∀ m ∈ body.children,
      (m.children.filter isNameToken).length ≤ 1) ∧
    (∀ body ∈ modifiedCtorClassNode.children, ∀ m ∈ body.children, ∀ c ∈ m.children,
      c.kind = "private_property_identifier" → c.text ≠ "constructor") ∧
    ctorMethodRecord ∈ extract_methods_from_class modifiedCtorClassNode "K" "k.ts" ∧
    (ctorMethodRecord.is_constructor = true ↔ ctorMethodRecord.name = "constructor") :=
  ⟨by decide, by decide, by decide,
    c9_constructor_iff modifiedCtorClassNode "K" "k.ts" (by decide) (by decide)
      ctorMethodRecord (by decide)⟩

/-- C2: the per-child `try`/`except` of the walker is total and absorbing —
whatever the child step does, a failing child leaves the accumulated unit
untouched and the walk continues with the remaining children, a
successful child's unit is threaded on, so the walk returns a unit for
every input and the records of all successfully processed children are
kept; an import statement whose module-path string is missing yields zero
`ImportStatement`s; concretely, a file whose first import statement is
malformed still yields exactly the record of its remaining good import. -/
theorem c2_walker_absorbs_errors :
    (∀ (step : Node → TypeScriptCodeFile → Except String TypeScriptCodeFile)
        (c : Node) (rest : List Node) (cf : TypeScriptCodeFile) (e : String),
      step c cf = .error e →
      walkChildren step (c :: rest) cf = walkChildren step rest cf) ∧
    (∀ (step : Node → TypeScriptCodeFile → Except String TypeScriptCodeFile)
        (c : Node) (rest : List Node) (cf next : TypeScriptCodeFile),
      step c cf = .ok next →
      walkChildren step (c :: rest) cf = walkChildren step rest next) ∧
    (∀ (n : Node) (p : String),
      find_node n.children (fun c => c.kind == "string") = none →
      extract_import_from_node n p = []) ∧
    (extract_code_parts mixedImportTree "app.ts" (emptyUnit "app.ts" "app.ts")).depends_on =
      [mkImport "React" "react" goodImportNode "app.ts"] := by
  refine ⟨?_, ?_, ?_, by decide⟩
  · intro step c rest cf e h
    simp only [walkChildren, List.foldl_cons, h]
  · intro step c rest cf next h
    simp only [walkChildren, List.foldl_cons, h]
  · intro n p h
    unfold extract_import_from_node
    rw [h]

/-- Witness for C2: a constantly failing step walks to the initial unit,
and the malformed import of the mixed example yields no records. -/
theorem c2_walker_absorbs_errors_witness :
    ((fun (_ : Node) (_ : TypeScriptCodeFile) =>
        (.error "boom" : Except String TypeScriptCodeFile)) badImportNode
        (emptyUnit "app.ts" "app.ts") = .error "boom") ∧
    walkChildren
      (fun (_ : Node) (_ : TypeScriptCodeFile) =>
        (.error "boom" : Except String TypeScriptCodeFile))
      [badImportNode] (emptyUnit "app.ts" "app.ts") =
      walkChildren
        (fun (_ : Node) (_ : TypeScriptCodeFile) =>
          (.error "boom" : Except String TypeScriptCodeFile))
        [] (emptyUnit "app.ts" "app.ts") ∧
    find_node badImportNode.children (fun c => c.kind == "string") = none ∧
    extract_import_from_node badImportNode "app.ts" = [] :=
  ⟨rfl,
    c2_walker_absorbs_errors.1 _ badImportNode [] (emptyUnit "app.ts" "app.ts") "boom" rfl,
    by rfl,
    c2_walker_absorbs_errors.2.2.1 badImportNode "app.ts" (by rfl)⟩

/-- The `named_imports` clause body of `import \x7b a, b as c \x7d from
"./m"`. -/
def namedImportsListNode : Node :=
  .mk "named_imports" none "\x7b a, b as c \x7d" (0, 7) (0, 21)
    [ .mk "\x7b" none "\x7b" (0, 7) (0, 8) [],
      .mk "import_specifier" none "a" (0, 9) (0, 10)
        [ .mk "identifier" (some "name") "a" (0, 9) (0, 10) [] ],
      .mk "," none "," (0, 10) (0, 11) [],
      .mk "import_specifier" none "b as c" (0, 12) (0, 18)
        [ .mk "identifier" (some "name") "b" (0, 12) (0, 13) [],
          .mk "as" none "as" (0, 14) (0, 16) [],
          .mk "identifier" (some "alias") "c" (0, 17) (0, 18) [] ],
      .mk "\x7d" none "\x7d" (0, 19) (0, 20) [] ]

/-- CST of `import \x7b a, b as c \x7d from "./m"`. -/
def namedImportNode : Node :=
  .mk "import_statement" none "import \x7b a, b as c \x7d from \"./m\"" (0, 0) (0, 32)
    [ .mk "import" none "import" (0, 0) (0, 6) [],
      .mk "import_clause" none "\x7b a, b as c \x7d" (0, 7) (0, 21) [namedImportsListNode],
      .mk "from" none "from" (0, 22) (0, 26) [],
      .mk "string" (some "source") "\"./m\"" (0, 27) (0, 32) [] ]

/-- C8: wherever a specifier can carry an alias, the alias — the *last*
identifier — is the recorded name: every record produced from a
named-import specifier, from a named re-export specifier, or from a destructured
require property is named after the last identifier child of that
specifier, never the pre-alias name; concretely
`import \x7b a, b as c \x7d from "./m"` records exactly the names `a` and
`c`. -/
theorem c8_alias_wins :
    (∀ (n : Node) (p : String) (mn clause ni : Node),
      find_node n.children (fun c => c.kind == "string") = some mn →
      find_node n.children (fun c => c.kind == "import_clause") = some clause →
      find_node clause.children (fun c => c.kind == "identifier") = none →
      find_node clause.children (fun c => c.kind == "namespace_import") = none →
      find_node clause.children (fun c => c.kind == "named_imports") = some ni →
      ∀ r ∈ extract_import_from_node n p,
        ∃ spec ∈ ni.children, spec.kind = "import_specifier" ∧
          ∃ last, (spec.children.filter (fun c => c.kind == "identifier")).getLast? =
            some last ∧ r.name = last.text) ∧
    (∀ (n : Node) (p : String) (mn ec : Node),
      find_node n.children (fun c => c.kind == "string") = some mn →
      n.children.any (fun c => c.kind == "*" || c.text == "*") = false →
      find_node n.children (fun c => c.kind == "export_clause") = some ec →
      ∀ r ∈ extract_reexport_from_node n p,
        ∃ spec ∈ ec.children, spec.kind = "export_specifier" ∧
          ∃ last, (spec.children.filter (fun c => c.kind == "identifier")).getLast? =
            some last ∧ r.name = last.text) ∧
    (∀ (n : Node) (p : String) (d ce fnode args mn pat : Node),
      find_node n.children (fun c => c.kind == "variable_declarator") = some d →
      find_node d.children (fun c => c.kind == "call_expression") = some ce →
      find_node ce.children (fun c => c.kind == "identifier") = some fnode →
      fnode.text = "require" →
      find_node ce.children (fun c => c.kind == "arguments") = some args →
      find_node args.children (fun c => c.kind == "string") = some mn →
      d.child_by_field_name "name" = some pat →
      pat.kind = "object_pattern" →
      ∀ r ∈ extract_require_from_node n p,
        ∃ child ∈ pat.children,
          (child.kind = "shorthand_property_identifier_pattern" ∧ r.name = child.text) ∨
          (child.kind = "pair_pattern" ∧
            ∃ last, (child.children.filter (fun c =>
                c.kind == "identifier" || c.kind == "shorthand_property_identifier")).getLast? =
              some last ∧ r.name = last.text)) ∧
    (extract_import_from_node namedImportNode "m.ts").map (fun r => r.name) = ["a", "c"] := by
  refine ⟨?_, ?_, ?_, by decide⟩
  · intro n p mn clause ni hmn hclause hid hns hni r hr
    unfold extract_import_from_node at hr
    rw [hmn, hclause] at hr
    dsimp only at hr
    rw [hid, hns, hni] at hr
    dsimp only at hr
    rw [List.nil_append, List.nil_append, List.mem_flatMap] at hr
    obtain ⟨spec, hspec, hrs⟩ := hr
    by_cases hk : (spec.kind == "import_specifier") = true
    · rw [if_pos hk] at hrs
      refine ⟨spec, hspec, by simpa using hk, ?_⟩
      rcases hfil : spec.children.filter (fun c => c.kind == "identifier") with _ | ⟨a, rest⟩
      · simp only [hfil] at hrs
        exact absurd hrs (List.not_mem_nil r)
      · rcases rest with _ | ⟨b, rest2⟩
        · simp only [hfil, List.mem_singleton] at hrs
          exact ⟨a, by rw [hfil]; simp, by rw [hrs]; rfl⟩
        · rcases rest2 with _ | ⟨c, rest3⟩
          · simp only [hfil, List.mem_singleton] at hrs
            exact ⟨b, by rw [hfil]; simp, by rw [hrs]; rfl⟩
          · simp only [hfil] at hrs
            exact absurd hrs (List.not_mem_nil r)
    · rw [if_neg hk] at hrs
      cases hrs
  · intro n p mn ec hmn hw hec r hr
    unfold extract_reexport_from_node at hr
    rw [hmn] at hr
    dsimp only at hr
    rw [hw] at hr
    simp only [Bool.false_eq_true, if_false] at hr
    rw [hec, List.mem_flatMap] at hr
    obtain ⟨spec, hspec, hrs⟩ := hr
    by_cases hk : (spec.kind == "export_specifier") = true
    · rw [if_pos hk] at hrs
      refine ⟨spec, hspec, by simpa using hk, ?_⟩
      rcases hfil : spec.children.filter (fun c => c.kind == "identifier") with _ | ⟨a, rest⟩
      · simp only [hfil] at hrs
        exact absurd hrs (List.not_mem_nil r)
      · rcases rest with _ | ⟨b, rest2⟩
        · simp only [hfil, List.mem_singleton] at hrs
          exact ⟨a, by rw [hfil]; simp, by rw [hrs]; rfl⟩
        · rcases rest2 with _ | ⟨c, rest3⟩
          · simp only [hfil, List.mem_singleton] at hrs
            exact ⟨b, by rw [hfil]; simp, by rw [hrs]; rfl⟩
          · simp only [hfil] at hrs
            exact absurd hrs (List.not_mem_nil r)
    · rw [if_neg hk] at hrs
      cases hrs
  · intro n p d ce fnode args mn pat hd hce hf hreq hargs hmn hpat hobj r hr
    unfold extract_require_from_node at hr
    rw [hd] at hr
    dsimp only at hr
    rw [hce] at hr
    dsimp only at hr
    rw [hf] at hr
    dsimp only at hr
    rw [if_neg (by simp [hreq])] at hr
    rw [hargs] at hr
    dsimp only at hr
    rw [hmn] at hr
    dsimp only at hr
    rw [hpat] at hr
    dsimp only at hr
    rw [if_pos (by simp [hobj]), List.mem_flatMap] at hr
    obtain ⟨child, hchild, hrc⟩ := hr
    refine ⟨child, hchild, ?_⟩
    by_cases hk1 : (child.kind == "shorthand_property_identifier_pattern") = true
    · rw [if_pos hk1, List.mem_singleton] at hrc
      exact Or.inl ⟨by simpa using hk1, by rw [hrc]; rfl⟩
    · rw [if_neg hk1] at hrc
      by_cases hk2 : (child.kind == "pair_pattern") = true
      · rw [if_pos hk2] at hrc
        rcases hlast : (child.children.filter (fun c =>
            c.kind == "identifier" || c.kind == "shorthand_property_identifier")).getLast? with
          _ | last
        · rw [hlast] at hrc; cases hrc
        · rw [hlast, List.mem_singleton] at hrc
          exact Or.inr ⟨by simpa using hk2, last, hlast, by rw [hrc]; rfl⟩
      · rw [if_neg hk2] at hrc
        cases hrc

/-- Witness for C8 at `import \x7b a, b as c \x7d from "./m"`: the record
produced for the aliased specifier `b as c` is named `c`, the last
identifier of the specifier. -/
theorem c8_alias_wins_witness :
    mkImport "c" "./m" namedImportNode "m.ts" ∈
      extract_import_from_node namedImportNode "m.ts" ∧
    (∃ spec ∈ namedImportsListNode.children, spec.kind = "import_specifier" ∧
      ∃ last, (spec.children.filter (fun c => c.kind == "identifier")).getLast? =
        some last ∧ (mkImport "c" "./m" namedImportNode "m.ts").name = last.text) :=
  ⟨by decide,
    c8_alias_wins.1 namedImportNode "m.ts" _ _ namedImportsListNode
      rfl rfl rfl rfl rfl
      (mkImport "c" "./m" namedImportNode "m.ts") (by decide)⟩

/-! ## The span/raw-text invariant (C4) -/

theorem spansOkToDepth_node {file : String} {n : Node} :
    ∀ {k : Nat}, spansOkToDepth file k n = true → nodeSpanOk file n = true
  | 0, h => h
  | _ + 1, h => ((Bool.and_eq_true _ _).mp h).1

theorem spansOkToDepth_child {file : String} {k : Nat} {n c : Node} (hc : c ∈ n.children)
    (h : spansOkToDepth file (k + 1) n = true) : spansOkToDepth file k c = true := by
  have hall := ((Bool.and_eq_true _ _).mp h).2
  rw [List.all_eq_true] at hall
  exact hall c hc

theorem nodeSpanOk_agrees {file : String} {n : Node} (h : nodeSpanOk file n = true) :
    spanAgrees file n.text n.start_point n.end_point := by
  simpa [nodeSpanOk, spanAgrees] using h

/-- Every record of `extract_import_from_node` copies the span and raw text
of the statement node. -/
theorem extract_import_src (n : Node) (p : String) :
    ∀ r ∈ extract_import_from_node n p,
      r.source_code = n.text ∧ r.start_point = n.start_point ∧ r.end_point = n.end_point := by
  intro r hr
  unfold extract_import_from_node at hr
  rcases h1 : find_node n.children (fun c => c.kind == "string") with _ | mn <;>
    simp only [h1] at hr
  · exact absurd hr (List.not_mem_nil r)
  rcases h2 : find_node n.children (fun c => c.kind == "import_clause") with _ | cl <;>
    simp only [h2] at hr
  · exact absurd hr (List.not_mem_nil r)
  rw [List.mem_append] at hr
  rcases hr with hr | hr
  · rw [List.mem_append] at hr
    rcases hr with hr | hr
    · rcases h3 : find_node cl.children (fun c => c.kind == "identifier") with _ | idn <;>
        simp only [h3] at hr
      · exact absurd hr (List.not_mem_nil r)
      · rw [List.mem_singleton] at hr
        subst hr
        exact ⟨rfl, rfl, rfl⟩
    · rcases h4 : find_node cl.children (fun c => c.kind == "namespace_import") with _ | ns <;>
        simp only [h4] at hr
      · exact absurd hr (List.not_mem_nil r)
      · rcases h5 : find_node ns.children (fun c => c.kind == "identifier") with _ | nsid <;>
          simp only [h5] at hr
        · exact absurd hr (List.not_mem_nil r)
        · rw [List.mem_singleton] at hr
          subst hr
          exact ⟨rfl, rfl, rfl⟩
  · rcases h6 : find_node cl.children (fun c => c.kind == "named_imports") with _ | ni <;>
      simp only [h6] at hr
    · exact absurd hr (List.not_mem_nil r)
    · rw [List.mem_flatMap] at hr
      obtain ⟨spec, hspec, hrs⟩ := hr
      split at hrs
      · rcases hfil : spec.children.filter (fun c => c.kind == "identifier") with
          _ | ⟨a, _ | ⟨b, _ | _⟩⟩ <;> simp only [hfil] at hrs
        · exact absurd hrs (List.not_mem_nil r)
        · rw [List.mem_singleton] at hrs
          subst hrs
          exact ⟨rfl, rfl, rfl⟩
        · rw [List.mem_singleton] at hrs
          subst hrs
          exact ⟨rfl, rfl, rfl⟩
        · exact absurd hrs (List.not_mem_nil r)
      · exact absurd hrs (List.not_mem_nil r)

/-- Every record of `extract_require_from_node` copies the span and raw
text of the declaration node. -/
theorem extract_require_src (n : Node) (p : String) :
    ∀ r ∈ extract_require_from_node n p,
      r.source_code = n.text ∧ r.start_point = n.start_point ∧ r.end_point = n.end_point := by
  intro r hr
  unfold extract_require_from_node at hr
  rcases h1 : find_node n.children (fun c => c.kind == "variable_declarator") with _ | d <;>
    simp only [h1] at hr
  · exact absurd hr (List.not_mem_nil r)
  rcases h2 : find_node d.children (fun c => c.kind == "call_expression") with _ | ce <;>
    simp only [h2] at hr
  · exact absurd hr (List.not_mem_nil r)
  rcases h3 : find_node ce.children (fun c => c.kind == "identifier") with _ | fnode <;>
    simp only [h3] at hr
  · exact absurd hr (List.not_mem_nil r)
  split at hr
  · exact absurd hr (List.not_mem_nil r)
  rcases h4 : find_node ce.children (fun c => c.kind == "arguments") with _ | args <;>
    simp only [h4] at hr
  · exact absurd hr (List.not_mem_nil r)
  rcases h5 : find_node args.children (fun c => c.kind == "string") with _ | mn <;>
    simp only [h5] at hr
  · exact absurd hr (List.not_mem_nil r)
  rcases h6 : d.child_by_field_name "name" with _ | pat <;> simp only [h6] at hr
  · exact absurd hr (List.not_mem_nil r)
  split at hr
  · rw [List.mem_flatMap] at hr
    obtain ⟨child, hchild, hrc⟩ := hr
    split at hrc
    · rw [List.mem_singleton] at hrc
      subst hrc
      exact ⟨rfl, rfl, rfl⟩
    · split at hrc
      · rcases h7 : (child.children.filter (fun c =>
            c.kind == "identifier" || c.kind == "shorthand_property_identifier")).getLast? with
          _ | last <;> simp only [h7] at hrc
        · exact absurd hrc (List.not_mem_nil r)
        · rw [List.mem_singleton] at hrc
          subst hrc
          exact ⟨rfl, rfl, rfl⟩
      · exact absurd hrc (List.not_mem_nil r)
  · split at hr
    · rw [List.mem_singleton] at hr
      subst hr
      exact ⟨rfl, rfl, rfl⟩
    · exact absurd hr (List.not_mem_nil r)

/-- Every record of `extract_reexport_from_node` copies the span and raw
text of the export-statement node. -/
theorem extract_reexport_src (n : Node) (p : String) :
    ∀ r ∈ extract_reexport_from_node n p,
      r.source_code = n.text ∧ r.start_point = n.start_point ∧ r.end_point = n.end_point := by
  intro r hr
  unfold extract_reexport_from_node at hr
  rcases h1 : find_node n.children (fun c => c.kind == "string") with _ | mn <;>
    simp only [h1] at hr
  · exact absurd hr (List.not_mem_nil r)
  split at hr
  · rw [List.mem_singleton] at hr
    subst hr
    exact ⟨rfl, rfl, rfl⟩
  · rcases h2 : find_node n.children (fun c => c.kind == "export_clause") with _ | ec <;>
      simp only [h2] at hr
    · exact absurd hr (List.not_mem_nil r)
    · rw [List.mem_flatMap] at hr
      obtain ⟨spec, hspec, hrs⟩ := hr
      split at hrs
      · rcases hfil : spec.children.filter (fun c => c.kind == "identifier") with
          _ | ⟨a, _ | ⟨b, _ | _⟩⟩ <;> simp only [hfil] at hrs
        · exact absurd hrs (List.not_mem_nil r)
        · rw [List.mem_singleton] at hrs
          subst hrs
          exact ⟨rfl, rfl, rfl⟩
        · rw [List.mem_singleton] at hrs
          subst hrs
          exact ⟨rfl, rfl, rfl⟩
        · exact absurd hrs (List.not_mem_nil r)
      · exact absurd hrs (List.not_mem_nil r)

/-- Every record of `extract_export_from_node` copies the span and raw text
of the export-statement node. -/
theorem extract_export_src (n : Node) (p : String) :
    ∀ r ∈ extract_export_from_node n p,
      r.source_code = n.text ∧ r.start_point = n.start_point ∧ r.end_point = n.end_point := by
  intro r hr
  unfold extract_export_from_node at hr
  dsimp only at hr
  by_cases hd : (n.children.any fun c => c.kind == "default" || c.text == "default") = true
  · rw [if_pos hd, List.mem_singleton] at hr
    subst hr
    exact ⟨rfl, rfl, rfl⟩
  · rw [if_neg hd] at hr
    rcases h1 : find_node n.children (fun c => c.kind == "export_clause") with _ | ec <;>
      simp only [h1] at hr
    · exact absurd hr (List.not_mem_nil r)
    · rw [List.mem_flatMap] at hr
      obtain ⟨spec, hspec, hrs⟩ := hr
      split at hrs
      · rcases hfil : spec.children.filter (fun c => c.kind == "identifier") with
          _ | ⟨a, _ | ⟨b, _ | _⟩⟩ <;> simp only [hfil] at hrs
        · exact absurd hrs (List.not_mem_nil r)
        · rw [List.mem_singleton] at hrs
          subst hrs
          exact ⟨rfl, rfl, rfl⟩
        · rw [List.mem_singleton] at hrs
          subst hrs
          exact ⟨rfl, rfl, rfl⟩
        · exact absurd hrs (List.not_mem_nil r)
      · exact absurd hrs (List.not_mem_nil r)

/-- A function record copies the span and raw text of its node. -/
theorem extract_function_src (n : Node) (p : String) (fd : FunctionDefinition)
    (h : extract_function_from_node n p = some fd) :
    fd.source_code = n.text ∧ fd.start_point = n.start_point ∧ fd.end_point = n.end_point := by
  unfold extract_function_from_node at h
  rcases h1 : resolvedFunctionName n with _ | nm <;> simp only [h1] at h
  · cases h
  · split at h
    · cases h
    · rw [Option.some_inj] at h
      subst h
      exact ⟨rfl, rfl, rfl⟩

/-- A class record copies the span and raw text of its node. -/
theorem extract_class_src (n : Node) (p : String) (cd : ClassDefinition)
    (h : extract_class_from_node n p = some cd) :
    cd.source_code = n.text ∧ cd.start_point = n.start_point ∧ cd.end_point = n.end_point := by
  unfold extract_class_from_node at h
  rcases h1 : n.child_by_field_name "name" with _ | nn <;>
    simp only [h1, Option.map_some'] at h
  · cases h
  · rw [Option.some_inj] at h
    subst h
    exact ⟨rfl, rfl, rfl⟩

/-- An interface record copies the span and raw text of its node. -/
theorem extract_interface_src (n : Node) (p : String) (d : InterfaceDefinition)
    (h : extract_interface_from_node n p = some d) :
    d.source_code = n.text ∧ d.start_point = n.start_point ∧ d.end_point = n.end_point := by
  unfold extract_interface_from_node at h
  rcases h1 : n.child_by_field_name "name" with _ | nn <;>
    simp only [h1, Option.map_some'] at h
  · cases h
  · rw [Option.some_inj] at h
    subst h
    exact ⟨rfl, rfl, rfl⟩

/-- A type-alias record copies the span and raw text of its node. -/
theorem extract_type_alias_src (n : Node) (p : String) (d : TypeAliasDefinition)
    (h : extract_type_alias_from_node n p = some d) :
    d.source_code = n.text ∧ d.start_point = n.start_point ∧ d.end_point = n.end_point := by
  unfold extract_type_alias_from_node at h
  rcases h1 : n.child_by_field_name "name" with _ | nn <;>
    simp only [h1, Option.map_some'] at h
  · cases h
  · rw [Option.some_inj] at h
    subst h
    exact ⟨rfl, rfl, rfl⟩

/-- An enum record copies the span and raw text of its node. -/
theorem extract_enum_src (n : Node) (p : String) (d : EnumDefinition)
    (h : extract_enum_from_node n p = some d) :
    d.source_code = n.text ∧ d.start_point = n.start_point ∧ d.end_point = n.end_point := by
  unfold extract_enum_from_node at h
  rcases h1 : n.child_by_field_name "name" with _ | nn <;>
    simp only [h1, Option.map_some'] at h
  · cases h
  · rw [Option.some_inj] at h
    subst h
    exact ⟨rfl, rfl, rfl⟩

/-- Method records agree with the file when the class node's spans hold to
depth 2 (class body, then members). -/
theorem methods_records_agree {file : String} (p cn : String) {c : Node}
    (hc : spansOkToDepth file 2 c = true) :
    ∀ r ∈ extract_methods_from_class c cn p,
      spanAgrees file r.source_code r.start_point r.end_point := by
  intro r hr
  obtain ⟨body, hbody, m, hm, _, t, _, _, _, _, _, hsrc, hsp, hep, _⟩ :=
    extract_methods_mem c cn p r hr
  have hbmem : body ∈ c.children := List.mem_of_find?_eq_some hbody
  have h1 : spansOkToDepth file 1 body = true := spansOkToDepth_child hbmem hc
  have h0 : spansOkToDepth file 0 m = true := spansOkToDepth_child hm h1
  rw [hsrc, hsp, hep]
  exact nodeSpanOk_agrees h0

theorem spansOkToDepth_mono {file : String} : ∀ {k : Nat} {n : Node},
    spansOkToDepth file (k + 1) n = true → spansOkToDepth file k n = true := by
  intro k
  induction k with
  | zero => intro n h; exact spansOkToDepth_node h
  | succ k ih =>
    intro n h
    obtain ⟨h1, h2⟩ := (Bool.and_eq_true _ _).mp h
    rw [List.all_eq_true] at h2
    refine (Bool.and_eq_true _ _).mpr ⟨h1, ?_⟩
    rw [List.all_eq_true]
    exact fun c hc => ih (h2 c hc)

theorem spansOk_append_imports {file : String} {cf : TypeScriptCodeFile}
    (h : codeFileSpansOk file cf) {l : List ImportStatement}
    (hl : ∀ r ∈ l, spanAgrees file r.source_code r.start_point r.end_point) :
    codeFileSpansOk file { cf with depends_on := cf.depends_on ++ l } := by
  obtain ⟨hdep, hfun, hcls, hintf, hty, henm, hexp, hmeth⟩ := h
  refine ⟨?_, hfun, hcls, hintf, hty, henm, hexp, hmeth⟩
  rw [List.forall_mem_append]
  exact ⟨hdep, hl⟩

theorem spansOk_append_function {file : String} {cf : TypeScriptCodeFile}
    (h : codeFileSpansOk file cf) {fd : FunctionDefinition}
    (hfd : spanAgrees file fd.source_code fd.start_point fd.end_point) :
    codeFileSpansOk file
      { cf with provides_function_definition := cf.provides_function_definition ++ [fd] } := by
  obtain ⟨hdep, hfun, hcls, hintf, hty, henm, hexp, hmeth⟩ := h
  refine ⟨hdep, ?_, hcls, hintf, hty, henm, hexp, hmeth⟩
  rw [List.forall_mem_append]
  refine ⟨hfun, fun r hr => ?_⟩
  rw [List.mem_singleton] at hr
  subst hr
  exact hfd

theorem spansOk_append_class_methods {file : String} {cf : TypeScriptCodeFile}
    (h : codeFileSpansOk file cf) {cd : ClassDefinition}
    (hcd : spanAgrees file cd.source_code cd.start_point cd.end_point)
    {ms : List MethodDefinition}
    (hms : ∀ r ∈ ms, spanAgrees file r.source_code r.start_point r.end_point) :
    codeFileSpansOk file
      { cf with
        provides_class_definition := cf.provides_class_definition ++ [cd]
        provides_method_definition := cf.provides_method_definition ++ ms } := by
  obtain ⟨hdep, hfun, hcls, hintf, hty, henm, hexp, hmeth⟩ := h
  refine ⟨hdep, hfun, ?_, hintf, hty, henm, hexp, ?_⟩
  · rw [List.forall_mem_append]
    refine ⟨hcls, fun r hr => ?_⟩
    rw [List.mem_singleton] at hr
    subst hr
    exact hcd
  · rw [List.forall_mem_append]
    exact ⟨hmeth, hms⟩

theorem spansOk_append_interface {file : String} {cf : TypeScriptCodeFile}
    (h : codeFileSpansOk file cf) {d : InterfaceDefinition}
    (hd : spanAgrees file d.source_code d.start_point d.end_point) :
    codeFileSpansOk file
      { cf with provides_interface_definition := cf.provides_interface_definition ++ [d] } := by
  obtain ⟨hdep, hfun, hcls, hintf, hty, henm, hexp, hmeth⟩ := h
  refine ⟨hdep, hfun, hcls, ?_, hty, henm, hexp, hmeth⟩
  rw [List.forall_mem_append]
  refine ⟨hintf, fun r hr => ?_⟩
  rw [List.mem_singleton] at hr
  subst hr
  exact hd

theorem spansOk_append_type_alias {file : String} {cf : TypeScriptCodeFile}
    (h : codeFileSpansOk file cf) {d : TypeAliasDefinition}
    (hd : spanAgrees file d.source_code d.start_point d.end_point) :
    codeFileSpansOk file { cf with provides_type_alias := cf.provides_type_alias ++ [d] } := by
  obtain ⟨hdep, hfun, hcls, hintf, hty, henm, hexp, hmeth⟩ := h
  refine ⟨hdep, hfun, hcls, hintf, ?_, henm, hexp, hmeth⟩
  rw [List.forall_mem_append]
  refine ⟨hty, fun r hr => ?_⟩
  rw [List.mem_singleton] at hr
  subst hr
  exact hd

theorem spansOk_append_enum {file : String} {cf : TypeScriptCodeFile}
    (h : codeFileSpansOk file cf) {d : EnumDefinition}
    (hd : spanAgrees file d.source_code d.start_point d.end_point) :
    codeFileSpansOk file
      { cf with provides_enum_definition := cf.provides_enum_definition ++ [d] } := by
  obtain ⟨hdep, hfun, hcls, hintf, hty, henm, hexp, hmeth⟩ := h
  refine ⟨hdep, hfun, hcls, hintf, hty, ?_, hexp, hmeth⟩
  rw [List.forall_mem_append]
  refine ⟨henm, fun r hr => ?_⟩
  rw [List.mem_singleton] at hr
  subst hr
  exact hd

theorem spansOk_append_exports {file : String} {cf : TypeScriptCodeFile}
    (h : codeFileSpansOk file cf) {l : List ExportStatement}
    (hl : ∀ r ∈ l, spanAgrees file r.source_code r.start_point r.end_point) :
    codeFileSpansOk file { cf with exports := cf.exports ++ l } := by
  obtain ⟨hdep, hfun, hcls, hintf, hty, henm, hexp, hmeth⟩ := h
  refine ⟨hdep, hfun, hcls, hintf, hty, henm, ?_, hmeth⟩
  rw [List.forall_mem_append]
  exact ⟨hexp, hl⟩

/-- Agreement of all three record projections with the node rewrites to
span agreement with the file. -/
theorem agrees_of_copies {file : String} {n : Node} {src : String} {sp ep : Nat × Nat}
    (h : src = n.text ∧ sp = n.start_point ∧ ep = n.end_point)
    (hn : nodeSpanOk file n = true) : spanAgrees file src sp ep := by
  obtain ⟨e1, e2, e3⟩ := h
  rw [e1, e2, e3]
  exact nodeSpanOk_agrees hn

/-- The inner export-unwrap step preserves the span invariant when the
unwrapped child's spans hold to depth 2. -/
theorem processExportChild_spans {file : String} (p : String) (cf : TypeScriptCodeFile)
    (ec : Node) (hec : spansOkToDepth file 2 ec = true)
    (hcf : codeFileSpansOk file cf) :
    codeFileSpansOk file (processExportChild p cf ec) := by
  have hnode : nodeSpanOk file ec = true := spansOkToDepth_node hec
  unfold processExportChild
  by_cases h1 : (ec.kind == "function_declaration") = true
  · rw [if_pos h1]
    rcases hf : extract_function_from_node ec p with _ | fd <;> simp only [hf]
    · exact hcf
    · exact spansOk_append_function hcf (agrees_of_copies (extract_function_src ec p fd hf) hnode)
  rw [if_neg h1]
  by_cases h2 : (ec.kind == "class_declaration" || ec.kind == "abstract_class_declaration") = true
  · rw [if_pos h2]
    rcases hcl : extract_class_from_node ec p with _ | cd <;> simp only [hcl]
    · exact hcf
    · exact spansOk_append_class_methods hcf
        (agrees_of_copies (extract_class_src ec p cd hcl) hnode)
        (methods_records_agree p cd.name hec)
  rw [if_neg h2]
  by_cases h3 : (ec.kind == "lexical_declaration") = true
  · rw [if_pos h3]
    rcases hf : extract_function_from_node ec p with _ | fd <;> simp only [hf]
    · exact hcf
    · exact spansOk_append_function hcf (agrees_of_copies (extract_function_src ec p fd hf) hnode)
  rw [if_neg h3]
  by_cases h4 : (ec.kind == "interface_declaration") = true
  · rw [if_pos h4]
    rcases hi : extract_interface_from_node ec p with _ | d <;> simp only [hi]
    · exact hcf
    · exact spansOk_append_interface hcf (agrees_of_copies (extract_interface_src ec p d hi) hnode)
  rw [if_neg h4]
  by_cases h5 : (ec.kind == "type_alias_declaration") = true
  · rw [if_pos h5]
    rcases ht : extract_type_alias_from_node ec p with _ | d <;> simp only [ht]
    · exact hcf
    · exact spansOk_append_type_alias hcf
        (agrees_of_copies (extract_type_alias_src ec p d ht) hnode)
  rw [if_neg h5]
  by_cases h6 : (ec.kind == "enum_declaration") = true
  · rw [if_pos h6]
    rcases he : extract_enum_from_node ec p with _ | d <;> simp only [he]
    · exact hcf
    · exact spansOk_append_enum hcf (agrees_of_copies (extract_enum_src ec p d he) hnode)
  rw [if_neg h6]
  exact hcf

/-- The walker step preserves the span invariant when the child's spans
hold to depth 3 (one extra level for the export unwrap). -/
theorem processChild_spans {file : String} (p : String) (cf : TypeScriptCodeFile)
    (c : Node) (hc : spansOkToDepth file 3 c = true)
    (hcf : codeFileSpansOk file cf) :
    codeFileSpansOk file (processChild p cf c) := by
  have hnode : nodeSpanOk file c = true := spansOkToDepth_node hc
  have hc2 : spansOkToDepth file 2 c = true := spansOkToDepth_mono hc
  unfold processChild
  by_cases h1 : (c.kind == "import_statement") = true
  · rw [if_pos h1]
    exact spansOk_append_imports hcf
      (fun r hr => agrees_of_copies (extract_import_src c p r hr) hnode)
  rw [if_neg h1]
  by_cases h2 : (c.kind == "function_declaration") = true
  · rw [if_pos h2]
    rcases hf : extract_function_from_node c p with _ | fd <;> simp only [hf]
    · exact hcf
    · exact spansOk_append_function hcf (agrees_of_copies (extract_function_src c p fd hf) hnode)
  rw [if_neg h2]
  by_cases h3 : (c.kind == "lexical_declaration") = true
  · rw [if_pos h3]
    dsimp only
    by_cases hre : (extract_require_from_node c p).isEmpty
    · rw [if_neg (by simp [hre])]
      rcases hf : extract_function_from_node c p with _ | fd <;> simp only [hf]
      · exact hcf
      · exact spansOk_append_function hcf
          (agrees_of_copies (extract_function_src c p fd hf) hnode)
    · rw [if_pos (by simp [Bool.not_eq_true] at hre ⊢; simp [hre])]
      exact spansOk_append_imports hcf
        (fun r hr => agrees_of_copies (extract_require_src c p r hr) hnode)
  rw [if_neg h3]
  by_cases h4 : (c.kind == "class_declaration" || c.kind == "abstract_class_declaration") = true
  · rw [if_pos h4]
    rcases hcl : extract_class_from_node c p with _ | cd <;> simp only [hcl]
    · exact hcf
    · exact spansOk_append_class_methods hcf
        (agrees_of_copies (extract_class_src c p cd hcl) hnode)
        (methods_records_agree p cd.name hc2)
  rw [if_neg h4]
  by_cases h5 : (c.kind == "interface_declaration") = true
  · rw [if_pos h5]
    rcases hi : extract_interface_from_node c p with _ | d <;> simp only [hi]
    · exact hcf
    · exact spansOk_append_interface hcf (agrees_of_copies (extract_interface_src c p d hi) hnode)
  rw [if_neg h5]
  by_cases h6 : (c.kind == "type_alias_declaration") = true
  · rw [if_pos h6]
    rcases ht : extract_type_alias_from_node c p with _ | d <;> simp only [ht]
    · exact hcf
    · exact spansOk_append_type_alias hcf
        (agrees_of_copies (extract_type_alias_src c p d ht) hnode)
  rw [if_neg h6]
  by_cases h7 : (c.kind == "enum_declaration") = true
  · rw [if_pos h7]
    rcases he : extract_enum_from_node c p with _ | d <;> simp only [he]
    · exact hcf
    · exact spansOk_append_enum hcf (agrees_of_copies (extract_enum_src c p d he) hnode)
  rw [if_neg h7]
  by_cases h8 : (c.kind == "export_statement") = true
  · rw [if_pos h8]
    dsimp only
    by_cases hre : (extract_reexport_from_node c p).isEmpty
    · rw [if_neg (by simp [hre])]
      refine foldl_preserves (codeFileSpansOk file) (fun ec => spansOkToDepth file 2 ec = true)
        (processExportChild p)
        (fun b a ha hb => processExportChild_spans p b a ha hb)
        c.children _ (fun ec hec => spansOkToDepth_child hec hc) ?_
      exact spansOk_append_exports hcf
        (fun r hr => agrees_of_copies (extract_export_src c p r hr) hnode)
    · rw [if_pos (by simp [Bool.not_eq_true] at hre ⊢; simp [hre])]
      exact spansOk_append_imports hcf
        (fun r hr => agrees_of_copies (extract_reexport_src c p r hr) hnode)
  rw [if_neg h8]
  exact hcf

/-- C4: for every parsed tree whose nodes satisfy the tree-sitter
text/span guarantee (down to the depth the walker inspects), every record
of every kind emitted by a detailed extraction stores as raw text exactly
the substring of the source file delimited by its span. -/
theorem c4_span_text_agreement (file repo p : String) (tree : Node)
    (h : spansOkToDepth file 4 tree = true) :
    codeFileSpansOk file (get_typescript_dependencies repo p file tree true) := by
  show codeFileSpansOk file (extract_code_parts tree p _)
  rw [extract_code_parts, walkChildren_extractStep]
  refine foldl_preserves (codeFileSpansOk file) (fun c => spansOkToDepth file 3 c = true)
    (processChild p) (fun b a ha hb => processChild_spans p b a ha hb)
    tree.children _ (fun c hc => spansOkToDepth_child hc h) ?_
  exact ⟨fun r hr => absurd hr (List.not_mem_nil r),
    fun r hr => absurd hr (List.not_mem_nil r),
    fun r hr => absurd hr (List.not_mem_nil r),
    fun r hr => absurd hr (List.not_mem_nil r),
    fun r hr => absurd hr (List.not_mem_nil r),
    fun r hr => absurd hr (List.not_mem_nil r),
    fun r hr => absurd hr (List.not_mem_nil r),
    fun r hr => absurd hr (List.not_mem_nil r)⟩

/-- Witness for C4 at the concrete file
`export default function f()\x7b\x7d`. -/
theorem c4_span_text_agreement_witness :
    spansOkToDepth exportDefaultSource 4 exportDefaultTree = true ∧
    codeFileSpansOk exportDefaultSource
      (get_typescript_dependencies "r" "app.ts" exportDefaultSource exportDefaultTree true) :=
  ⟨by decide,
    c4_span_text_agreement exportDefaultSource "r" "app.ts" exportDefaultTree (by decide)⟩

end TsExtract
